import Mathlib

/-!
Shallow embedding, in Lean 4, of the session layer of the `irmago` IRMA
client (files `irmaclient/session.go`, the legacy log file and the session
request file of package `irma`), together with theorems settling the frozen
claims about that code.

Modelling conventions:
* Go strings are modelled as `List Char` (the sources only manipulate ASCII
  bytes, so a `Char` stands for one byte).
* Go byte slices are modelled as `List Nat`, each entry below 256.
* `*big.Int` values are modelled as `Int` (or `Nat` where the source value
  is a `SetBytes` result and hence non-negative).
* Fallible Go functions return `Except` or `Option`; a Go runtime panic
  (out-of-range string index) is a dedicated error constructor of a total
  function.
* Side effects of the session engine (HTTP calls, handler callbacks) are
  modelled as explicit event traces.
-/

namespace Irmago

/-! ## Decimal strings (Go `strconv` / `fmt` fragments used by the sources) -/

/-- Decimal digit character for a value below ten (values ten and over clamp
to the last digit; all uses are guarded by proofs that the argument is below
ten). -/
def digitChar : Nat → Char
  | 0 => '0' | 1 => '1' | 2 => '2' | 3 => '3' | 4 => '4'
  | 5 => '5' | 6 => '6' | 7 => '7' | 8 => '8' | _ => '9'

/-- Numeric value of a decimal digit character, `none` on anything else. -/
def digitVal (c : Char) : Option Nat :=
  if 48 ≤ c.toNat ∧ c.toNat ≤ 57 then some (c.toNat - 48) else none

/-- Decimal rendering of a natural number, most significant digit first;
models `fmt.Sprint` / `%d` on a non-negative integer. -/
def natDecChars (n : Nat) : List Char :=
  if n < 10 then [digitChar n]
  else natDecChars (n / 10) ++ [digitChar (n % 10)]
  decreasing_by exact Nat.div_lt_self (by omega) (by omega)

/-- Decimal rendering of an integer; models `fmt.Sprint` on an `int64`. -/
def intDecChars (i : Int) : List Char :=
  if i < 0 then '-' :: natDecChars i.natAbs else natDecChars i.natAbs

/-- Left fold of decimal digits onto an accumulator; the digit-consuming core
of `strconv.Atoi`. Fails on the first non-digit character. -/
def foldDigits : List Char → Nat → Option Nat
  | [], acc => some acc
  | c :: cs, acc =>
    match digitVal c with
    | some d => foldDigits cs (acc * 10 + d)
    | none => none

/-- Parse a non-empty all-digit string as a natural number. -/
def parseNatDigits (cs : List Char) : Option Nat :=
  if cs.isEmpty then none else foldDigits cs 0

/-- Sign handling of `strconv.Atoi`: strip one leading `+` or `-`. -/
def goSignSplit : List Char → Bool × List Char
  | [] => (false, [])
  | c :: rest =>
    if c = '-' then (true, rest)
    else if c = '+' then (false, rest)
    else (false, c :: rest)

/-- Model of Go `strconv.Atoi` on a 64-bit platform: an optional single
`+`/`-` sign, one or more decimal digits, nothing else, and the value must
fit in an `int64`. -/
def goAtoi (cs : List Char) : Option Int :=
  let s := goSignSplit cs
  match parseNatDigits s.2 with
  | none => none
  | some n =>
    let v : Int := if s.1 then -(n : Int) else (n : Int)
    if -(2 ^ 63) ≤ v ∧ v < 2 ^ 63 then some v else none

theorem digitVal_digitChar {d : Nat} (h : d < 10) :
    digitVal (digitChar d) = some d := by
  interval_cases d <;> rfl

theorem digitChar_ne_minus {d : Nat} (h : d < 10) : digitChar d ≠ '-' := by
  interval_cases d <;> decide

theorem digitChar_ne_plus {d : Nat} (h : d < 10) : digitChar d ≠ '+' := by
  interval_cases d <;> decide

theorem foldDigits_append (xs ys : List Char) (acc : Nat) :
    foldDigits (xs ++ ys) acc =
      match foldDigits xs acc with
      | some m => foldDigits ys m
      | none => none := by
  induction xs generalizing acc with
  | nil => rfl
  | cons c cs ih =>
    simp only [List.cons_append, foldDigits]
    cases digitVal c with
    | none => rfl
    | some d => exact ih _

theorem natDecChars_ne_nil (n : Nat) : natDecChars n ≠ [] := by
  unfold natDecChars
  split <;> simp

/-- Every decimal rendering starts with a digit character. -/
theorem natDecChars_head (n : Nat) :
    ∃ d rest, d < 10 ∧ natDecChars n = digitChar d :: rest := by
  induction n using Nat.strong_induction_on with
  | _ n ih =>
    unfold natDecChars
    split
    · next h => exact ⟨n, [], h, rfl⟩
    · next h =>
      have hdiv : n / 10 < n := Nat.div_lt_self (by omega) (by omega)
      obtain ⟨d, rest, hd, heq⟩ := ih (n / 10) hdiv
      exact ⟨d, rest ++ [digitChar (n % 10)], hd, by rw [heq]; simp⟩

theorem foldDigits_natDecChars (n acc : Nat) :
    foldDigits (natDecChars n) acc = some (acc * 10 ^ (natDecChars n).length + n) := by
  induction n using Nat.strong_induction_on generalizing acc with
  | _ n ih =>
    unfold natDecChars
    split
    · next h =>
      simp [foldDigits, digitVal_digitChar h]
    · next h =>
      rw [foldDigits_append]
      have hdiv : n / 10 < n := Nat.div_lt_self (by omega) (by omega)
      rw [ih (n / 10) hdiv acc]
      have hm : n % 10 < 10 := Nat.mod_lt _ (by omega)
      simp only [foldDigits, digitVal_digitChar hm, List.length_append,
        List.length_singleton]
      have hpow : acc * 10 ^ ((natDecChars (n / 10)).length + 1) =
          (acc * 10 ^ (natDecChars (n / 10)).length) * 10 := by ring
      rw [hpow]
      congr 1
      omega

theorem parseNatDigits_natDecChars (n : Nat) :
    parseNatDigits (natDecChars n) = some n := by
  unfold parseNatDigits
  rw [if_neg (by simp [List.isEmpty_iff, natDecChars_ne_nil])]
  simpa using foldDigits_natDecChars n 0

theorem goSignSplit_natDecChars (n : Nat) :
    goSignSplit (natDecChars n) = (false, natDecChars n) := by
  obtain ⟨d, rest, hd, heq⟩ := natDecChars_head n
  rw [heq]
  simp [goSignSplit, digitChar_ne_minus hd, digitChar_ne_plus hd]

/-- Round trip of `strconv.Atoi` over `fmt.Sprint` for an integer in `int64`
range. -/
theorem goAtoi_intDecChars (i : Int) (hlo : -(2 ^ 63) ≤ i) (hhi : i < 2 ^ 63) :
    goAtoi (intDecChars i) = some i := by
  unfold goAtoi intDecChars
  by_cases h : i < 0
  · rw [if_pos h]
    have hsplit : goSignSplit ('-' :: natDecChars i.natAbs) = (true, natDecChars i.natAbs) := by
      simp [goSignSplit]
    rw [hsplit]
    simp only [parseNatDigits_natDecChars]
    have habs : -((i.natAbs : Int)) = i := by omega
    simp only [if_pos trivial, habs]
    rw [if_pos ⟨hlo, hhi⟩]
  · rw [if_neg h]
    rw [goSignSplit_natDecChars]
    simp only [parseNatDigits_natDecChars]
    have habs : ((i.natAbs : Int)) = i := by omega
    simp only [habs]
    simp
    omega

/-! ## Timestamps (`irma.Timestamp`, the session request file)

Go's `time.Time` is modelled by its Unix seconds (an `Int`) and a
sub-second nanosecond part `0 ≤ nsec < 10^9`, which is all the embedded
code observes. `Timestamp` is `time.Time` under a different name. -/

/-- Model of `irma.Timestamp` (a Go `time.Time`): Unix seconds plus
nanoseconds within the second. -/
structure Timestamp where
  sec : Int
  nsec : Nat
deriving DecidableEq, Repr

/-- Model of `Timestamp.MarshalJSON`: render `time.Time(*t).Unix()` — the
whole-second part — with `fmt.Sprint`. Never fails (the Go version returns
a never-`nil` error slot). -/
def Timestamp.MarshalJSON (t : Timestamp) : List Char :=
  intDecChars t.sec

/-- Model of `Timestamp.UnmarshalJSON`: `strconv.Atoi` on the raw bytes,
then `time.Unix(ts, 0)`. -/
def Timestamp.UnmarshalJSON (b : List Char) : Option Timestamp :=
  match goAtoi b with
  | none => none
  | some ts => some ⟨ts, 0⟩

/-- Truncation of a timestamp to whole seconds (`time.Unix(t.Unix(), 0)`). -/
def Timestamp.truncSec (t : Timestamp) : Timestamp := ⟨t.sec, 0⟩

/-- C10: marshalling a timestamp and unmarshalling the result yields the
timestamp truncated to whole seconds, and the round trip is the identity on
whole-second timestamps. The `int64` range bound mirrors `time.Time.Unix`
returning an `int64` (so `strconv.Atoi` cannot overflow on marshalled
output). -/
theorem timestamp_marshal_roundtrip (t : Timestamp)
    (hlo : -(2 ^ 63) ≤ t.sec) (hhi : t.sec < 2 ^ 63) :
    Timestamp.UnmarshalJSON (Timestamp.MarshalJSON t) = some t.truncSec ∧
    (t.nsec = 0 → Timestamp.UnmarshalJSON (Timestamp.MarshalJSON t) = some t) := by
  have hmain : Timestamp.UnmarshalJSON (Timestamp.MarshalJSON t) = some t.truncSec := by
    unfold Timestamp.UnmarshalJSON Timestamp.MarshalJSON Timestamp.truncSec
    rw [goAtoi_intDecChars t.sec hlo hhi]
  refine ⟨hmain, fun hns => ?_⟩
  rw [hmain]
  unfold Timestamp.truncSec
  cases t
  simp_all

theorem timestamp_marshal_roundtrip_witness :
    Timestamp.UnmarshalJSON (Timestamp.MarshalJSON ⟨1506676377, 5⟩) =
      some ⟨1506676377, 0⟩ ∧
    Timestamp.UnmarshalJSON (Timestamp.MarshalJSON ⟨-3, 0⟩) = some ⟨-3, 0⟩ :=
  ⟨(timestamp_marshal_roundtrip ⟨1506676377, 5⟩ (by decide) (by decide)).1,
   (timestamp_marshal_roundtrip ⟨-3, 0⟩ (by decide) (by decide)).2 rfl⟩

/-! ## Session engine state and observable events (`irmaclient/session.go`)

The `session` struct's lifetime-relevant fields are `done`, the
interactivity flag (`ServerURL != ""`) and the `downloaded` identifier set
(a possibly-nil pointer). Network calls and `Handler` callbacks are
modelled as an explicit trace of events; each lifetime function returns the
events it emits together with the successor state. -/

/-- Error types of `irma.SessionError` used by the embedded code. -/
inductive ErrorType
  | unknownSchemeManager
  | invalidSchemeManager
  | protocolVersionNotSupported
  | unknownAction
  | configurationDownload
  | invalidJWT
  | unknownCredentialType
  | crypto
  | rejected
  | serialization
  | keyshare
  | panicErr
deriving DecidableEq, Repr

/-- Model of `irma.SessionError`: the error type plus the `Info` string.
The wrapped Go `Err` field only carries a stack trace added by
`errors.Wrap` and is not observable in the embedded claims, so it is
omitted. -/
structure SessionError where
  errorType : ErrorType
  info : List Char
deriving DecidableEq, Repr

/-- Modelled from the spec: `irma.IrmaIdentifierSet` (the type lives in the
main `irma` package, outside the given sources). Per spec section 3 it
collects scheme-manager, issuer and credential-type identifiers (plus
public-key indices); `Empty` holds when every part is empty. -/
structure IrmaIdentifierSet where
  schemeManagers : List (List Char)
  issuers : List (List Char)
  credentialTypes : List (List Char)
  publicKeys : List (List Char × Nat)
deriving DecidableEq, Repr

/-- Modelled from the spec: emptiness of an identifier set. -/
def IrmaIdentifierSet.Empty (s : IrmaIdentifierSet) : Bool :=
  s.schemeManagers.isEmpty && s.issuers.isEmpty &&
    s.credentialTypes.isEmpty && s.publicKeys.isEmpty

/-- Observable actions of a session: network calls to the requestor and
`Handler` / `ClientHandler` callbacks. -/
inductive Event
  | httpDelete
  | httpPost
  | cbFailure (e : SessionError)
  | cbCancelled
  | cbSuccess
  | cbUpdateConfiguration (ids : IrmaIdentifierSet)
  | cbKeyshareEnrollmentMissing (manager : List Char)
  | downloadIdentifiers
deriving DecidableEq, Repr

/-- Lifetime-relevant state of a `session` value. -/
structure SessionState where
  done : Bool
  interactive : Bool
  downloaded : Option IrmaIdentifierSet
deriving DecidableEq, Repr

/-- Model of `session.delete`: idempotently send DELETE to the remote
server (only when interactive), returning whether we did something. -/
def sessionDelete (s : SessionState) : List Event × SessionState × Bool :=
  if s.done = false then
    ((if s.interactive then [Event.httpDelete] else []), { s with done := true }, true)
  else ([], s, false)

/-- Events of the `session.downloaded != nil && !session.downloaded.Empty()`
guarded `UpdateConfiguration` callback in `fail` and `cancel`. -/
def updateConfigEvents : Option IrmaIdentifierSet → List Event
  | none => []
  | some ids => if ids.Empty then [] else [Event.cbUpdateConfiguration ids]

/-- Model of `session.fail`. -/
def sessionFail (err : SessionError) (s : SessionState) : List Event × SessionState :=
  let d := sessionDelete s
  if d.2.2 then (d.1 ++ updateConfigEvents d.2.1.downloaded ++ [Event.cbFailure err], d.2.1)
  else (d.1, d.2.1)

/-- Model of `session.cancel`. -/
def sessionCancel (s : SessionState) : List Event × SessionState :=
  let d := sessionDelete s
  if d.2.2 then (d.1 ++ updateConfigEvents d.2.1.downloaded ++ [Event.cbCancelled], d.2.1)
  else (d.1, d.2.1)

/-- Model of `session.Dismiss`. -/
def sessionDismiss (s : SessionState) : List Event × SessionState :=
  sessionCancel s

/-- Model of the success path of `session.sendResponse`: POST the response
(interactive sessions only), announce configuration changes, set `done` and
fire `Success`. The log-entry write and the issuance `UpdateAttributes`
callback are elided; neither touches `done` nor the network DELETE. -/
def sessionSendResponseOk (s : SessionState) : List Event × SessionState :=
  ((if s.interactive then [Event.httpPost] else []) ++
      updateConfigEvents s.downloaded ++ [Event.cbSuccess],
    { s with done := true })

/-- Session-ending operations whose interleavings claim C3 quantifies
over. -/
inductive SessionOp
  | fail (e : SessionError)
  | cancel
  | dismiss
  | sendResponseOk
deriving DecidableEq, Repr

/-- One step of the session lifetime. -/
def sessionStep : SessionOp → SessionState → List Event × SessionState
  | SessionOp.fail e, s => sessionFail e s
  | SessionOp.cancel, s => sessionCancel s
  | SessionOp.dismiss, s => sessionDismiss s
  | SessionOp.sendResponseOk, s => sessionSendResponseOk s

/-- Trace of events emitted by a sequence of session-ending operations. -/
def sessionRun : List SessionOp → SessionState → List Event
  | [], _ => []
  | op :: ops, s =>
    let r := sessionStep op s
    r.1 ++ sessionRun ops r.2

/-- Number of network DELETE calls in a trace. -/
def countDeletes (evs : List Event) : Nat :=
  evs.count Event.httpDelete

theorem countDeletes_nil : countDeletes [] = 0 := rfl

theorem countDeletes_append (a b : List Event) :
    countDeletes (a ++ b) = countDeletes a + countDeletes b :=
  List.count_append _ _ _

theorem countDeletes_updateConfigEvents (d : Option IrmaIdentifierSet) :
    List.count Event.httpDelete (updateConfigEvents d) = 0 := by
  cases d with
  | none => rfl
  | some ids =>
    by_cases h : ids.Empty <;>
      simp [updateConfigEvents, h, List.count_cons]

/-- Every session-ending operation leaves the session marked done. -/
theorem sessionStep_done (op : SessionOp) (s : SessionState) :
    (sessionStep op s).2.done = true := by
  cases op <;>
    simp only [sessionStep, sessionFail, sessionCancel, sessionDismiss,
      sessionSendResponseOk, sessionDelete] <;>
    by_cases h : s.done = false <;> simp [h]

/-- A single operation emits at most one DELETE, and none at all once the
session is done. -/
theorem countDeletes_sessionStep (op : SessionOp) (s : SessionState) :
    countDeletes (sessionStep op s).1 ≤ 1 ∧
      (s.done = true → countDeletes (sessionStep op s).1 = 0) := by
  cases op <;>
    simp only [sessionStep, sessionFail, sessionCancel, sessionDismiss,
      sessionSendResponseOk, sessionDelete] <;>
    by_cases h : s.done = false <;>
    by_cases hi : s.interactive <;>
    simp [h, hi, countDeletes_append, countDeletes_updateConfigEvents,
      countDeletes, List.count_cons, List.count_nil]

/-- Once done, a whole run of session-ending operations emits no DELETE. -/
theorem countDeletes_sessionRun_done (ops : List SessionOp) (s : SessionState)
    (h : s.done = true) : countDeletes (sessionRun ops s) = 0 := by
  induction ops generalizing s with
  | nil => rfl
  | cons op ops ih =>
    simp only [sessionRun, countDeletes_append]
    rw [(countDeletes_sessionStep op s).2 h,
      ih _ (by rw [sessionStep_done])]

/-- C3: for every interleaving of the session-ending operations, at most one
network DELETE is issued; `delete()` sends DELETE only when `done` is still
false and only for interactive sessions, then sets `done`; and every
outcome transition attempted after `done` is set (repeated `fail`,
`cancel`, or `Dismiss`) performs no network call, fires no handler
callback, and does not change the state. -/
theorem session_delete_at_most_once (ops : List SessionOp) (s : SessionState)
    (e : SessionError) :
    countDeletes (sessionRun ops s) ≤ 1 ∧
    ((sessionDelete s).1 ≠ [] →
        s.done = false ∧ s.interactive = true ∧ (sessionDelete s).2.1.done = true) ∧
    (s.done = true →
      sessionFail e s = ([], s) ∧ sessionCancel s = ([], s) ∧
        sessionDismiss s = ([], s)) := by
  refine ⟨?_, ?_, ?_⟩
  · cases ops with
    | nil => simp [sessionRun, countDeletes]
    | cons op ops =>
      simp only [sessionRun, countDeletes_append]
      have h1 := (countDeletes_sessionStep op s).1
      have h2 := countDeletes_sessionRun_done ops _ (sessionStep_done op s)
      omega
  · intro hne
    by_cases h : s.done = false
    · by_cases hi : s.interactive <;>
        simp [sessionDelete, h, hi] at hne ⊢
    · simp [sessionDelete, h] at hne
  · intro hdone
    refine ⟨?_, ?_, ?_⟩ <;>
      simp [sessionFail, sessionCancel, sessionDismiss, sessionDelete, hdone]

theorem session_delete_at_most_once_witness :
    countDeletes (sessionRun
        [SessionOp.fail ⟨ErrorType.crypto, []⟩, SessionOp.cancel,
          SessionOp.dismiss, SessionOp.sendResponseOk]
        ⟨false, true, none⟩) ≤ 1 ∧
    ((false : Bool) = false ∧ (true : Bool) = true ∧
      (sessionDelete ⟨false, true, none⟩).2.1.done = true) ∧
    (sessionFail ⟨ErrorType.crypto, []⟩ ⟨true, true, none⟩ = ([], ⟨true, true, none⟩) ∧
      sessionCancel ⟨true, true, none⟩ = ([], ⟨true, true, none⟩) ∧
      sessionDismiss ⟨true, true, none⟩ = ([], ⟨true, true, none⟩)) :=
  ⟨(session_delete_at_most_once
      [SessionOp.fail ⟨ErrorType.crypto, []⟩, SessionOp.cancel,
        SessionOp.dismiss, SessionOp.sendResponseOk]
      ⟨false, true, none⟩ ⟨ErrorType.crypto, []⟩).1,
   (session_delete_at_most_once [] ⟨false, true, none⟩
      ⟨ErrorType.crypto, []⟩).2.1 (by decide),
   (session_delete_at_most_once [] ⟨true, true, none⟩
      ⟨ErrorType.crypto, []⟩).2.2 rfl⟩

/-- C6: on both the failure and the cancellation path of a live session,
a non-empty `downloaded` set is announced through `UpdateConfiguration`
(with exactly that set) immediately before the `Failure` / `Cancelled`
callback; when nothing was downloaded (`downloaded` nil or empty) no
`UpdateConfiguration` fires on that path. -/
theorem session_fail_cancel_update_configuration (s : SessionState)
    (e : SessionError) (ids : IrmaIdentifierSet) (hdone : s.done = false) :
    (s.downloaded = some ids → ids.Empty = false →
      (sessionFail e s).1 =
          (if s.interactive then [Event.httpDelete] else []) ++
            [Event.cbUpdateConfiguration ids, Event.cbFailure e] ∧
      (sessionCancel s).1 =
          (if s.interactive then [Event.httpDelete] else []) ++
            [Event.cbUpdateConfiguration ids, Event.cbCancelled]) ∧
    (s.downloaded = none ∨ s.downloaded = some ids ∧ ids.Empty = true →
      (sessionFail e s).1 =
          (if s.interactive then [Event.httpDelete] else []) ++ [Event.cbFailure e] ∧
      (sessionCancel s).1 =
          (if s.interactive then [Event.httpDelete] else []) ++ [Event.cbCancelled]) := by
  constructor
  · intro hsome hne
    constructor <;>
      simp [sessionFail, sessionCancel, sessionDelete, hdone, hsome,
        updateConfigEvents, hne]
  · intro hempty
    have hupd : updateConfigEvents s.downloaded = [] := by
      rcases hempty with hnone | ⟨hsome, hemp⟩
      · simp [hnone, updateConfigEvents]
      · simp [hsome, updateConfigEvents, hemp]
    constructor <;>
      simp [sessionFail, sessionCancel, sessionDelete, hdone, hupd]

theorem session_fail_cancel_update_configuration_witness :
    (sessionFail ⟨ErrorType.crypto, []⟩
        ⟨false, true, some ⟨[['a']], [], [], []⟩⟩).1 =
      [Event.httpDelete, Event.cbUpdateConfiguration ⟨[['a']], [], [], []⟩,
        Event.cbFailure ⟨ErrorType.crypto, []⟩] ∧
    (sessionCancel ⟨false, true, some ⟨[['a']], [], [], []⟩⟩).1 =
      [Event.httpDelete, Event.cbUpdateConfiguration ⟨[['a']], [], [], []⟩,
        Event.cbCancelled] :=
  (session_fail_cancel_update_configuration
    ⟨false, true, some ⟨[['a']], [], [], []⟩⟩ ⟨ErrorType.crypto, []⟩
    ⟨[['a']], [], [], []⟩ rfl).1 rfl rfl

/-! ## Panic recovery (`panicToError`, `session.panicFailure`) -/

/-- A recovered Go panic value, classified the way `panicToError`'s type
switch classifies it: a `string`, a value implementing `error` (whose
`Error()` result is carried), a value implementing `fmt.Stringer` but not
`error` (its `String()` result is carried; the `error` case of the switch
is listed first and therefore wins), or any other value. -/
inductive GoValue
  | goString (s : List Char)
  | goError (s : List Char)
  | goStringer (s : List Char)
  | goOther
deriving DecidableEq, Repr

/-- String representation of a panic value in the sense of the type switch:
the string itself, `Error()`, or `String()`; `none` for other values. -/
def goValueStringRep : GoValue → Option (List Char)
  | GoValue.goString s => some s
  | GoValue.goError s => some s
  | GoValue.goStringer s => some s
  | GoValue.goOther => none

/-- Model of `panicToError`. -/
def panicToError : GoValue → SessionError
  | GoValue.goString x => ⟨ErrorType.panicErr, x⟩
  | GoValue.goError x => ⟨ErrorType.panicErr, x⟩
  | GoValue.goStringer x => ⟨ErrorType.panicErr, x⟩
  | GoValue.goOther => ⟨ErrorType.panicErr, []⟩

/-- Model of `session.panicFailure`: the deferred recovery barrier. The
argument is what `recover()` returned (`none` when the task did not
panic). -/
def sessionPanicFailure (recovered : Option GoValue) (handlerPresent : Bool) :
    List Event :=
  match recovered with
  | none => []
  | some e => if handlerPresent then [Event.cbFailure (panicToError e)] else []

/-- C7: every recovered panic value surfaces through `Handler.Failure` as a
`SessionError` of type `ErrorPanic` whose `Info` is the panic value's
string representation, and the empty string for values of any other
type. -/
theorem panic_surfaces_as_error_panic (v : GoValue) :
    sessionPanicFailure (some v) true = [Event.cbFailure (panicToError v)] ∧
    (panicToError v).errorType = ErrorType.panicErr ∧
    (∀ s, goValueStringRep v = some s → (panicToError v).info = s) ∧
    (goValueStringRep v = none → (panicToError v).info = []) := by
  refine ⟨rfl, ?_, ?_, ?_⟩ <;>
    cases v <;> simp [panicToError, goValueStringRep]

theorem panic_surfaces_as_error_panic_witness :
    sessionPanicFailure (some (GoValue.goString ['b', 'o', 'o', 'm'])) true =
        [Event.cbFailure (panicToError (GoValue.goString ['b', 'o', 'o', 'm']))] ∧
    (panicToError (GoValue.goString ['b', 'o', 'o', 'm'])).errorType =
        ErrorType.panicErr ∧
    (panicToError (GoValue.goString ['b', 'o', 'o', 'm'])).info =
        ['b', 'o', 'o', 'm'] ∧
    (panicToError GoValue.goOther).info = [] :=
  ⟨(panic_surfaces_as_error_panic (GoValue.goString ['b', 'o', 'o', 'm'])).1,
   (panic_surfaces_as_error_panic (GoValue.goString ['b', 'o', 'o', 'm'])).2.1,
   (panic_surfaces_as_error_panic (GoValue.goString ['b', 'o', 'o', 'm'])).2.2.1
     _ rfl,
   (panic_surfaces_as_error_panic GoValue.goOther).2.2.2 rfl⟩

/-! ## Configuration checking (`session.checkAndUpateConfiguration`,
`session.checkKeyshareEnrollment`)

Go iterates the scheme managers of the identifier set in unspecified map
order; the model takes the enumeration order as an explicit list. The
outcome of `Configuration.Download` (a network operation outside the given
sources) is an oracle parameter. -/

/-- Scheme-manager descriptor fields the session layer reads. `distributed`
models the `Distributed()` method (whether a keyshare server URL is set),
per spec section 3. -/
structure SchemeManager where
  valid : Bool
  status : List Char
  distributed : Bool
deriving DecidableEq, Repr

/-- Client state the configuration check reads: the configuration's
scheme-manager map and the set of enrolled keyshare servers. -/
structure ClientModel where
  schemeManagers : List (List Char × SchemeManager)
  keyshareServers : List (List Char)
deriving DecidableEq, Repr

/-- Lookup in `client.Configuration.SchemeManagers`. -/
def lookupManager (client : ClientModel) (id : List Char) : Option SchemeManager :=
  client.schemeManagers.lookup id

/-- The scheme-manager validation loop of `checkAndUpateConfiguration`: the
session error produced by the first offending manager in enumeration
order, if any. -/
def checkManagersLoop (client : ClientModel) : List (List Char) → Option SessionError
  | [] => none
  | id :: rest =>
    match lookupManager client id with
    | none => some ⟨ErrorType.unknownSchemeManager, id⟩
    | some m =>
      if m.valid = false then some ⟨ErrorType.invalidSchemeManager, m.status⟩
      else checkManagersLoop client rest

/-- Model of `session.checkKeyshareEnrollment`: events and success flag. -/
def checkKeyshareEnrollment (client : ClientModel) :
    List (List Char) → List Event × Bool
  | [] => ([], true)
  | id :: rest =>
    match lookupManager client id with
    | none => ([Event.cbFailure ⟨ErrorType.unknownSchemeManager, id⟩], false)
    | some m =>
      if m.distributed && !(client.keyshareServers.contains id) then
        ([Event.cbKeyshareEnrollmentMissing id], false)
      else checkKeyshareEnrollment client rest

/-- Model of `session.checkAndUpateConfiguration` (the source's spelling):
validate every referenced scheme manager, check keyshare enrollment, then
download missing descriptors. `dl` is the oracle for
`Configuration.Download`: either a download failure message or the set of
identifiers actually added. Returns the emitted events, the successor
state, and the boolean the Go function returns. -/
def checkAndUpateConfiguration (client : ClientModel) (ids : List (List Char))
    (dl : Except (List Char) IrmaIdentifierSet) (s : SessionState) :
    List Event × SessionState × Bool :=
  match checkManagersLoop client ids with
  | some e =>
    let r := sessionFail e s
    (r.1, r.2, false)
  | none =>
    let k := checkKeyshareEnrollment client ids
    if k.2 = false then (k.1, s, false)
    else
      match dl with
      | Except.error msg =>
        let r := sessionFail ⟨ErrorType.configurationDownload, msg⟩ s
        (Event.downloadIdentifiers :: r.1, r.2, false)
      | Except.ok added =>
        ([Event.downloadIdentifiers], { s with downloaded := some added }, true)

theorem downloadIdentifiers_not_mem_sessionFail (e : SessionError) (s : SessionState) :
    Event.downloadIdentifiers ∉ (sessionFail e s).1 := by
  unfold sessionFail sessionDelete
  by_cases h : s.done = false <;>
    by_cases hi : s.interactive <;>
    simp [h, hi] <;>
    cases hd : s.downloaded <;>
    simp_all [updateConfigEvents]

theorem checkManagersLoop_first_missing (client : ClientModel)
    (pre post : List (List Char)) (id : List Char)
    (hpre : ∀ j ∈ pre, ∃ m, lookupManager client j = some m ∧ m.valid = true)
    (hid : lookupManager client id = none) :
    checkManagersLoop client (pre ++ id :: post) =
      some ⟨ErrorType.unknownSchemeManager, id⟩ := by
  induction pre with
  | nil => simp [checkManagersLoop, hid]
  | cons j pre ih =>
    obtain ⟨m, hm, hv⟩ := hpre j (by simp)
    simp only [List.cons_append, checkManagersLoop, hm]
    rw [if_neg (by simp [hv])]
    exact ih fun j hj => hpre j (by simp [hj])

theorem checkManagersLoop_first_invalid (client : ClientModel)
    (pre post : List (List Char)) (id : List Char) (m : SchemeManager)
    (hpre : ∀ j ∈ pre, ∃ m, lookupManager client j = some m ∧ m.valid = true)
    (hid : lookupManager client id = some m) (hv : m.valid = false) :
    checkManagersLoop client (pre ++ id :: post) =
      some ⟨ErrorType.invalidSchemeManager, m.status⟩ := by
  induction pre with
  | nil => simp [checkManagersLoop, hid, hv]
  | cons j pre ih =>
    obtain ⟨m', hm', hv'⟩ := hpre j (by simp)
    simp only [List.cons_append, checkManagersLoop, hm']
    rw [if_neg (by simp [hv'])]
    exact ih fun j hj => hpre j (by simp [hj])

theorem checkManagersLoop_errorType (client : ClientModel)
    (ids : List (List Char)) (e : SessionError)
    (h : checkManagersLoop client ids = some e) :
    e.errorType = ErrorType.unknownSchemeManager ∨
      e.errorType = ErrorType.invalidSchemeManager := by
  induction ids with
  | nil => simp [checkManagersLoop] at h
  | cons id rest ih =>
    simp only [checkManagersLoop] at h
    cases hm : lookupManager client id with
    | none =>
      simp only [hm] at h
      cases h
      left; rfl
    | some m =>
      simp only [hm] at h
      by_cases hv : m.valid = false
      · rw [if_pos hv] at h
        cases h
        right; rfl
      · rw [if_neg hv] at h
        exact ih h

theorem checkManagersLoop_isSome_of_bad (client : ClientModel)
    (ids : List (List Char)) (id : List Char) (hmem : id ∈ ids)
    (hbad : lookupManager client id = none ∨
      ∃ m, lookupManager client id = some m ∧ m.valid = false) :
    ∃ e, checkManagersLoop client ids = some e := by
  induction ids with
  | nil => simp at hmem
  | cons j rest ih =>
    simp only [checkManagersLoop]
    cases hm : lookupManager client j with
    | none => exact ⟨_, rfl⟩
    | some m =>
      simp only []
      by_cases hv : m.valid = false
      · rw [if_pos hv]
        exact ⟨_, rfl⟩
      · rw [if_neg hv]
        rcases List.mem_cons.mp hmem with heq | hmem'
        · subst heq
          rcases hbad with hnone | ⟨m', hm', hv'⟩
          · rw [hm] at hnone; cases hnone
          · rw [hm] at hm'
            cases hm'
            exact absurd hv' hv
        · exact ih hmem'

/-- C4: a session whose identifier set references, as first offender in
enumeration order, a scheme manager missing from the configuration fails
with `UnknownSchemeManager` carrying the manager identifier as `Info`; a
first offender that is present but not valid fails with
`InvalidSchemeManager`; in both cases (and for any offending manager
anywhere in the set) the check fails before any descriptor download, so no
download is attempted on the failing run. -/
theorem session_scheme_manager_validation (client : ClientModel)
    (ids pre post : List (List Char)) (id : List Char) (m : SchemeManager)
    (dl : Except (List Char) IrmaIdentifierSet) (s : SessionState) :
    (ids = pre ++ id :: post →
      (∀ j ∈ pre, ∃ mj, lookupManager client j = some mj ∧ mj.valid = true) →
      (lookupManager client id = none →
        checkAndUpateConfiguration client ids dl s =
          ((sessionFail ⟨ErrorType.unknownSchemeManager, id⟩ s).1,
            (sessionFail ⟨ErrorType.unknownSchemeManager, id⟩ s).2, false)) ∧
      (lookupManager client id = some m → m.valid = false →
        checkAndUpateConfiguration client ids dl s =
          ((sessionFail ⟨ErrorType.invalidSchemeManager, m.status⟩ s).1,
            (sessionFail ⟨ErrorType.invalidSchemeManager, m.status⟩ s).2, false))) ∧
    (id ∈ ids →
      (lookupManager client id = none ∨
        ∃ mb, lookupManager client id = some mb ∧ mb.valid = false) →
      (checkAndUpateConfiguration client ids dl s).2.2 = false ∧
        Event.downloadIdentifiers ∉ (checkAndUpateConfiguration client ids dl s).1 ∧
        ∃ e, checkManagersLoop client ids = some e ∧
          (checkAndUpateConfiguration client ids dl s).1 = (sessionFail e s).1 ∧
          (e.errorType = ErrorType.unknownSchemeManager ∨
            e.errorType = ErrorType.invalidSchemeManager)) := by
  constructor
  · rintro rfl hpre
    constructor
    · intro hnone
      simp only [checkAndUpateConfiguration,
        checkManagersLoop_first_missing client pre post id hpre hnone]
    · intro hsome hv
      simp only [checkAndUpateConfiguration,
        checkManagersLoop_first_invalid client pre post id m hpre hsome hv]
  · intro hmem hbad
    obtain ⟨e, he⟩ := checkManagersLoop_isSome_of_bad client ids id hmem hbad
    have hiter : checkAndUpateConfiguration client ids dl s =
        ((sessionFail e s).1, (sessionFail e s).2, false) := by
      simp only [checkAndUpateConfiguration, he]
    refine ⟨?_, ?_, e, he, ?_, checkManagersLoop_errorType client ids e he⟩ <;>
      rw [hiter]
    · exact downloadIdentifiers_not_mem_sessionFail e s

theorem session_scheme_manager_validation_witness :
    checkAndUpateConfiguration ⟨[], []⟩
        [['i', 'r', 'm', 'a', '-', 'd', 'e', 'm', 'o']]
        (Except.ok ⟨[], [], [], []⟩) ⟨false, true, none⟩ =
      ((sessionFail
          ⟨ErrorType.unknownSchemeManager,
            ['i', 'r', 'm', 'a', '-', 'd', 'e', 'm', 'o']⟩
          ⟨false, true, none⟩).1,
        (sessionFail
          ⟨ErrorType.unknownSchemeManager,
            ['i', 'r', 'm', 'a', '-', 'd', 'e', 'm', 'o']⟩
          ⟨false, true, none⟩).2, false) :=
  ((session_scheme_manager_validation ⟨[], []⟩
      [['i', 'r', 'm', 'a', '-', 'd', 'e', 'm', 'o']] []
      [] ['i', 'r', 'm', 'a', '-', 'd', 'e', 'm', 'o']
      ⟨true, [], false⟩ (Except.ok ⟨[], [], [], []⟩) ⟨false, true, none⟩).1
    rfl (by simp)).1 rfl

/-! ## Protocol version negotiation (`calcVersion`, `supportedVersions`)

`calcVersion` indexes the QR's version strings at byte positions 0 and 2
and runs `strconv.Atoi` on each single-byte substring. An out-of-range
index is a Go runtime panic; the model makes it an explicit outcome. -/

/-- Model of `irma.Qr` as far as `calcVersion` reads it (spec section 6:
`v` and `vmax` are ASCII `"major.minor"` strings). -/
structure Qr where
  protocolVersion : List Char
  protocolMaxVersion : List Char
deriving DecidableEq, Repr

/-- Outcome of `calcVersion`: a negotiated version string, a returned
error (failed `Atoi` or no supported version in range), or a runtime panic
from an out-of-range string index (`which` = 0 for `ProtocolVersion`, 1
for `ProtocolMaxVersion`; `idx` the offending index). -/
inductive CalcResult
  | ok (version : List Char)
  | atoiError (c : Char)
  | noSupportedVersion (minV maxV : List Char)
  | panicIndexOOB (which idx : Nat)
deriving DecidableEq, Repr

/-- Model of the package-level `supportedVersions` map together with the
`sort.Reverse`-sorted key iteration of `calcVersion`: major versions in
descending order, each with its (reverse-sorted) minor list. -/
def supportedVersions : List (Nat × List Nat) := [(2, [2, 1])]

/-- Inner loop of `calcVersion` over one major's minor list. -/
def findMinor (major minmajor minminor maxmajor maxminor : Nat) :
    List Nat → Option (Nat × Nat)
  | [] => none
  | minor :: rest =>
    let aboveMinimum := major > minmajor ∨ (major = minmajor ∧ minor ≥ minminor)
    let underMaximum := major < maxmajor ∨ (major = maxmajor ∧ minor ≤ maxminor)
    if aboveMinimum ∧ underMaximum then some (major, minor)
    else findMinor major minmajor minminor maxmajor maxminor rest

/-- Outer loop of `calcVersion` over the majors. -/
def findVersionPair (minmajor minminor maxmajor maxminor : Nat) :
    List (Nat × List Nat) → Option (Nat × Nat)
  | [] => none
  | (major, minors) :: rest =>
    match findMinor major minmajor minminor maxmajor maxminor minors with
    | some p => some p
    | none => findVersionPair minmajor minminor maxmajor maxminor rest

/-- Model of `calcVersion`. Byte `which`/`idx` reads model
`qr.ProtocolVersion[idx]` (`which` 0) and `qr.ProtocolMaxVersion[idx]`
(`which` 1); `strconv.Atoi` on a one-byte string succeeds exactly on a
digit. -/
def calcVersion (qr : Qr) : CalcResult :=
  match qr.protocolVersion.get? 0 with
  | none => CalcResult.panicIndexOOB 0 0
  | some c0 =>
    match digitVal c0 with
    | none => CalcResult.atoiError c0
    | some minmajor =>
      match qr.protocolVersion.get? 2 with
      | none => CalcResult.panicIndexOOB 0 2
      | some c2 =>
        match digitVal c2 with
        | none => CalcResult.atoiError c2
        | some minminor =>
          match qr.protocolMaxVersion.get? 0 with
          | none => CalcResult.panicIndexOOB 1 0
          | some d0 =>
            match digitVal d0 with
            | none => CalcResult.atoiError d0
            | some maxmajor =>
              match qr.protocolMaxVersion.get? 2 with
              | none => CalcResult.panicIndexOOB 1 2
              | some d2 =>
                match digitVal d2 with
                | none => CalcResult.atoiError d2
                | some maxminor =>
                  match findVersionPair minmajor minminor maxmajor maxminor
                      supportedVersions with
                  | some (major, minor) =>
                    CalcResult.ok (natDecChars major ++ '.' :: natDecChars minor)
                  | none =>
                    CalcResult.noSupportedVersion qr.protocolVersion
                      qr.protocolMaxVersion

/-- The version-negotiation fragment of `Client.NewSession` (session.go
lines 266-270): any `calcVersion` error is surfaced by failing the fresh
session with `ProtocolVersionNotSupported`. A fresh interactive session
has `done = false` and nothing downloaded. -/
def newSessionVersionCheck (qr : Qr) : Option (List Char) × List Event :=
  match calcVersion qr with
  | CalcResult.ok v => (some v, [])
  | CalcResult.atoiError _ =>
    (none, (sessionFail ⟨ErrorType.protocolVersionNotSupported, []⟩
      ⟨false, true, none⟩).1)
  | CalcResult.noSupportedVersion _ _ =>
    (none, (sessionFail ⟨ErrorType.protocolVersionNotSupported, []⟩
      ⟨false, true, none⟩).1)
  | CalcResult.panicIndexOOB _ _ => (none, [])

/-- Lexicographic order on (major, minor) pairs, following the spec's
words for the negotiation rule. -/
def lexLe (a b : Nat × Nat) : Prop :=
  a.1 < b.1 ∨ (a.1 = b.1 ∧ a.2 ≤ b.2)

instance (a b : Nat × Nat) : Decidable (lexLe a b) := by
  unfold lexLe
  infer_instance

/-- The iteration order of the negotiation loops: majors in the order of
the (reverse-sorted) key list, each major's minor list in the given
order. -/
def iterationOrder : List (Nat × Nat) :=
  supportedVersions.flatMap fun p => p.2.map fun m => (p.1, m)

/-- Negotiation as the spec words it: the first supported pair, in
iteration order, lying between the server's minimum and maximum. -/
def specNegotiate (minP maxP : Nat × Nat) : Option (Nat × Nat) :=
  iterationOrder.find? fun p => decide (lexLe minP p) && decide (lexLe p maxP)

theorem findMinor_eq_find (M a b c d : Nat) (ms : List Nat) :
    findMinor M a b c d ms =
      (ms.map fun m => (M, m)).find?
        (fun p => decide (lexLe (a, b) p) && decide (lexLe p (c, d))) := by
  induction ms with
  | nil => rfl
  | cons m rest ih =>
    simp only [findMinor, List.map_cons, List.find?_cons]
    have hcond : (decide (lexLe (a, b) (M, m)) && decide (lexLe (M, m) (c, d))) = true ↔
        ((M > a ∨ (M = a ∧ m ≥ b)) ∧ (M < c ∨ (M = c ∧ m ≤ d))) := by
      simp only [Bool.and_eq_true, decide_eq_true_eq, lexLe]
      constructor <;> intro h <;> omega
    by_cases h : (M > a ∨ (M = a ∧ m ≥ b)) ∧ (M < c ∨ (M = c ∧ m ≤ d))
    · rw [if_pos h]
      have : (decide (lexLe (a, b) (M, m)) && decide (lexLe (M, m) (c, d))) = true :=
        hcond.mpr h
      simp [this]
    · rw [if_neg h]
      have : (decide (lexLe (a, b) (M, m)) && decide (lexLe (M, m) (c, d))) = false := by
        rcases hb : (decide (lexLe (a, b) (M, m)) && decide (lexLe (M, m) (c, d))) with _ | _
        · rfl
        · exact absurd (hcond.mp hb) h
      simp [this, ih]

theorem findVersionPair_eq_find (a b c d : Nat) (l : List (Nat × List Nat)) :
    findVersionPair a b c d l =
      (l.flatMap fun p => p.2.map fun m => (p.1, m)).find?
        (fun p => decide (lexLe (a, b) p) && decide (lexLe p (c, d))) := by
  induction l with
  | nil => rfl
  | cons p rest ih =>
    obtain ⟨M, ms⟩ := p
    simp only [findVersionPair, List.flatMap_cons, List.find?_append,
      findMinor_eq_find a b c d M ms |>.symm]
    rw [findMinor_eq_find]
    cases (ms.map fun m => (M, m)).find?
        (fun q => decide (lexLe (a, b) q) && decide (lexLe q (c, d))) with
    | none => simpa using ih
    | some q => rfl

/-- C2: version negotiation. The supported iteration order is majors
descending with each minor list as given (concretely `2.2` then `2.1`);
the code's nested loops return the first supported pair between the
server's minimum and maximum in lexicographic order (stated as equality
with the spec-worded `specNegotiate`); on a QR carrying well-formed
single-digit `major.minor` strings `calcVersion` returns exactly that
pair rendered as `"major.minor"`, or the no-supported-version error; the
range `[2.1, 2.3]` negotiates `"2.2"`, the range `[2.3, 2.4]` fails, and
a no-supported-version failure is surfaced by failing the session with
`ProtocolVersionNotSupported`. -/
theorem calc_version_negotiation :
    iterationOrder = [(2, 2), (2, 1)] ∧
    (∀ a b c d : Nat,
      findVersionPair a b c d supportedVersions = specNegotiate (a, b) (c, d)) ∧
    (∀ (a b c d : Nat) (t1 t2 : List Char), a < 10 → b < 10 → c < 10 → d < 10 →
      calcVersion ⟨digitChar a :: '.' :: digitChar b :: t1,
          digitChar c :: '.' :: digitChar d :: t2⟩ =
        match specNegotiate (a, b) (c, d) with
        | some (M, m) => CalcResult.ok (natDecChars M ++ '.' :: natDecChars m)
        | none =>
          CalcResult.noSupportedVersion (digitChar a :: '.' :: digitChar b :: t1)
            (digitChar c :: '.' :: digitChar d :: t2)) ∧
    calcVersion ⟨['2', '.', '1'], ['2', '.', '3']⟩ =
      CalcResult.ok ['2', '.', '2'] ∧
    calcVersion ⟨['2', '.', '3'], ['2', '.', '4']⟩ =
      CalcResult.noSupportedVersion ['2', '.', '3'] ['2', '.', '4'] ∧
    (∀ (qr : Qr) (v1 v2 : List Char),
      calcVersion qr = CalcResult.noSupportedVersion v1 v2 →
      newSessionVersionCheck qr =
        (none, [Event.httpDelete,
          Event.cbFailure ⟨ErrorType.protocolVersionNotSupported, []⟩])) := by
  refine ⟨rfl, ?_, ?_, ?_, ?_, ?_⟩
  · intro a b c d
    exact findVersionPair_eq_find a b c d supportedVersions
  · intro a b c d t1 t2 ha hb hc hd
    simp only [calcVersion, List.get?_cons_zero, List.get?_cons_succ,
      digitVal_digitChar ha, digitVal_digitChar hb, digitVal_digitChar hc,
      digitVal_digitChar hd, findVersionPair_eq_find]
    rfl
  · rw [show calcVersion ⟨['2', '.', '1'], ['2', '.', '3']⟩ =
        CalcResult.ok (natDecChars 2 ++ '.' :: natDecChars 2) from rfl]
    have h22 : natDecChars 2 = ['2'] := by
      unfold natDecChars
      rw [if_pos (by omega)]
      rfl
    rw [h22]
    rfl
  · decide
  · intro qr v1 v2 h
    simp [newSessionVersionCheck, h, sessionFail, sessionDelete, updateConfigEvents]

theorem calc_version_negotiation_witness :
    calcVersion ⟨digitChar 2 :: '.' :: digitChar 1 :: [],
        digitChar 2 :: '.' :: digitChar 3 :: []⟩ =
      (match specNegotiate (2, 1) (2, 3) with
        | some (M, m) => CalcResult.ok (natDecChars M ++ '.' :: natDecChars m)
        | none => CalcResult.noSupportedVersion
            (digitChar 2 :: '.' :: digitChar 1 :: [])
            (digitChar 2 :: '.' :: digitChar 3 :: [])) ∧
    newSessionVersionCheck ⟨['2', '.', '3'], ['2', '.', '4']⟩ =
      (none, [Event.httpDelete,
        Event.cbFailure ⟨ErrorType.protocolVersionNotSupported, []⟩]) :=
  ⟨calc_version_negotiation.2.2.1 2 1 2 3 [] []
      (by decide) (by decide) (by decide) (by decide),
   calc_version_negotiation.2.2.2.2.2 ⟨['2', '.', '3'], ['2', '.', '4']⟩
      ['2', '.', '3'] ['2', '.', '4'] calc_version_negotiation.2.2.2.2.1⟩

/-- Split a version string at its first dot (claim-side reading: the
major and minor components). -/
def splitAtDot : List Char → List Char × List Char
  | [] => ([], [])
  | c :: rest =>
    if c = '.' then ([], rest)
    else
      let r := splitAtDot rest
      (c :: r.1, r.2)

/-- Claim C9's asserted reading of a version string: the first digit of
the major component and the first digit of the minor component. -/
def componentsFirstDigits (s : List Char) : Option (Nat × Nat) :=
  match (splitAtDot s).1.head?, (splitAtDot s).2.head? with
  | some a, some b =>
    match digitVal a, digitVal b with
    | some x, some y => some (x, y)
    | _, _ => none
  | _, _ => none

/-- Claim C9's asserted behaviour of `calcVersion` on multi-digit
components: negotiate over the range formed by the first digit of each
component, silently. -/
def claimMisreadCalc (qr : Qr) : Option (List Char) :=
  match componentsFirstDigits qr.protocolVersion,
    componentsFirstDigits qr.protocolMaxVersion with
  | some (a, b), some (c, d) =>
    match findVersionPair a b c d supportedVersions with
    | some (M, m) => some (natDecChars M ++ '.' :: natDecChars m)
    | none => none
  | _, _ => none

/-- Counterexample to C9 as stated: on the range `[2.1, 30.5]` — a
multi-digit major in the maximum — the claimed first-digit-per-component
reading negotiates `"2.2"` silently, but `calcVersion` reads byte 2 of
`"30.5"`, which is the digit `'0'` followed at byte 2 by `'.'`: `Atoi`
fails on `'.'` and the function errors instead of silently misreading. -/
theorem calc_version_byte_indexing_counterexample :
    claimMisreadCalc ⟨['2', '.', '1'], ['3', '0', '.', '5']⟩ =
        some ['2', '.', '2'] ∧
    calcVersion ⟨['2', '.', '1'], ['3', '0', '.', '5']⟩ =
        CalcResult.atoiError '.' ∧
    calcVersion ⟨['2', '.', '1'], ['3', '0', '.', '5']⟩ ≠
        CalcResult.ok ['2', '.', '2'] := by
  refine ⟨?_, by decide, by decide⟩
  rw [show claimMisreadCalc ⟨['2', '.', '1'], ['3', '0', '.', '5']⟩ =
      some (natDecChars 2 ++ '.' :: natDecChars 2) from rfl]
  have h22 : natDecChars 2 = ['2'] := by
    unfold natDecChars
    rw [if_pos (by omega)]
    rfl
  rw [h22]
  rfl

theorem get?_some_lt {l : List Char} {n : Nat} {c : Char}
    (h : l.get? n = some c) : n < l.length := by
  rw [List.get?_eq_getElem?] at h
  exact (List.getElem?_eq_some_iff.mp h).1

theorem get?_none_of_le {l : List Char} {n : Nat} (h : l.length ≤ n) :
    l.get? n = none := by
  rw [List.get?_eq_getElem?]
  exact List.getElem?_eq_none h

/-- Outcome of `calcVersion` with the no-supported-version payload erased
(that payload echoes the full input strings, which are not themselves
inspected). -/
def calcResultKind : CalcResult → CalcResult
  | CalcResult.noSupportedVersion _ _ => CalcResult.noSupportedVersion [] []
  | r => r

theorem calcVersion_short_err (qr : Qr)
    (h : qr.protocolVersion.length < 3 ∨ qr.protocolMaxVersion.length < 3) :
    (∃ c, calcVersion qr = CalcResult.atoiError c) ∨
      ∃ w i, calcVersion qr = CalcResult.panicIndexOOB w i := by
  unfold calcVersion
  cases h0 : qr.protocolVersion.get? 0 with
  | none => exact Or.inr ⟨0, 0, rfl⟩
  | some c0 =>
    simp only []
    cases digitVal c0 with
    | none => exact Or.inl ⟨c0, rfl⟩
    | some a =>
      simp only []
      cases h2 : qr.protocolVersion.get? 2 with
      | none => exact Or.inr ⟨0, 2, rfl⟩
      | some c2 =>
        simp only []
        cases digitVal c2 with
        | none => exact Or.inl ⟨c2, rfl⟩
        | some b =>
          simp only []
          cases h3 : qr.protocolMaxVersion.get? 0 with
          | none => exact Or.inr ⟨1, 0, rfl⟩
          | some d0 =>
            simp only []
            cases digitVal d0 with
            | none => exact Or.inl ⟨d0, rfl⟩
            | some c =>
              simp only []
              cases h4 : qr.protocolMaxVersion.get? 2 with
              | none => exact Or.inr ⟨1, 2, rfl⟩
              | some d2 =>
                have l1 := get?_some_lt h2
                have l2 := get?_some_lt h4
                rcases h with h | h <;> omega

/-- Amended C9: `calcVersion` reads exactly the bytes at positions 0 and 2
of each version string (congruence up to the error payload); any version
string shorter than 3 bytes makes it hit the error branch of the total
embedding — an out-of-range index (a runtime panic in Go) whenever the
bytes read up to that point are digits, a failed `Atoi` otherwise; a
multi-digit minor with a single-digit major is silently misread as its
first digit (`[2.1, 2.10]` negotiates `"2.1"` although the advertised
range contains the supported `2.2`); a multi-digit major instead puts
`'.'` at position 2, so `Atoi` fails and the session errors rather than
silently misreading. -/
theorem calc_version_byte_indexing :
    (∀ qr qr' : Qr,
      qr.protocolVersion.get? 0 = qr'.protocolVersion.get? 0 →
      qr.protocolVersion.get? 2 = qr'.protocolVersion.get? 2 →
      qr.protocolMaxVersion.get? 0 = qr'.protocolMaxVersion.get? 0 →
      qr.protocolMaxVersion.get? 2 = qr'.protocolMaxVersion.get? 2 →
      calcResultKind (calcVersion qr) = calcResultKind (calcVersion qr')) ∧
    (∀ qr : Qr,
      qr.protocolVersion.length < 3 ∨ qr.protocolMaxVersion.length < 3 →
      (∃ c, calcVersion qr = CalcResult.atoiError c) ∨
        ∃ w i, calcVersion qr = CalcResult.panicIndexOOB w i) ∧
    (∀ t2, calcVersion ⟨[], t2⟩ = CalcResult.panicIndexOOB 0 0) ∧
    (∀ a t1 t2, a < 10 → t1.length ≤ 1 →
      calcVersion ⟨digitChar a :: t1, t2⟩ = CalcResult.panicIndexOOB 0 2) ∧
    (∀ a b, a < 10 → b < 10 →
      calcVersion ⟨[digitChar a, '.', digitChar b], []⟩ =
        CalcResult.panicIndexOOB 1 0) ∧
    (∀ a b c t2, a < 10 → b < 10 → c < 10 → t2.length ≤ 1 →
      calcVersion ⟨[digitChar a, '.', digitChar b], digitChar c :: t2⟩ =
        CalcResult.panicIndexOOB 1 2) ∧
    (calcVersion ⟨['2', '.', '1'], ['2', '.', '1', '0']⟩ =
        CalcResult.ok ['2', '.', '1'] ∧
      specNegotiate (2, 1) (2, 10) = some (2, 2)) ∧
    calcVersion ⟨['2', '.', '1'], ['3', '0', '.', '5']⟩ =
      CalcResult.atoiError '.' := by
  refine ⟨?_, calcVersion_short_err, ?_, ?_, ?_, ?_, ⟨?_, by decide⟩, by decide⟩
  · intro qr qr' h1 h2 h3 h4
    unfold calcVersion
    rw [h1, h2, h3, h4]
    cases qr'.protocolVersion.get? 0 with
    | none => rfl
    | some c0 =>
      simp only []
      cases digitVal c0 with
      | none => rfl
      | some a =>
        simp only []
        cases qr'.protocolVersion.get? 2 with
        | none => rfl
        | some c2 =>
          simp only []
          cases digitVal c2 with
          | none => rfl
          | some b =>
            simp only []
            cases qr'.protocolMaxVersion.get? 0 with
            | none => rfl
            | some d0 =>
              simp only []
              cases digitVal d0 with
              | none => rfl
              | some c =>
                simp only []
                cases qr'.protocolMaxVersion.get? 2 with
                | none => rfl
                | some d2 =>
                  simp only []
                  cases digitVal d2 with
                  | none => rfl
                  | some d =>
                    simp only []
                    cases findVersionPair a b c d supportedVersions with
                    | none => rfl
                    | some p => cases p; rfl
  · intro t2
    rfl
  · intro a t1 t2 ha hlen
    unfold calcVersion
    have h0 : (digitChar a :: t1).get? 0 = some (digitChar a) := rfl
    have h2 : (digitChar a :: t1).get? 2 = none := by
      apply get?_none_of_le
      simp
      omega
    rw [h0, h2]
    simp only [digitVal_digitChar ha]
  · intro a b ha hb
    unfold calcVersion
    simp only [List.get?_cons_zero, List.get?_cons_succ,
      digitVal_digitChar ha, digitVal_digitChar hb]
    rfl
  · intro a b c t2 ha hb hc hlen
    unfold calcVersion
    have h4 : (digitChar c :: t2).get? 2 = none := by
      apply get?_none_of_le
      simp
      omega
    simp only [List.get?_cons_zero, List.get?_cons_succ,
      digitVal_digitChar ha, digitVal_digitChar hb, digitVal_digitChar hc, h4]
  · rw [show calcVersion ⟨['2', '.', '1'], ['2', '.', '1', '0']⟩ =
        CalcResult.ok (natDecChars 2 ++ '.' :: natDecChars 1) from rfl]
    have h22 : natDecChars 2 = ['2'] := by
      unfold natDecChars
      rw [if_pos (by omega)]
      rfl
    have h11 : natDecChars 1 = ['1'] := by
      unfold natDecChars
      rw [if_pos (by omega)]
      rfl
    rw [h22, h11]
    rfl

theorem calc_version_byte_indexing_witness :
    calcResultKind (calcVersion ⟨['2', '.', '1', '9'], ['2', '.', '3']⟩) =
      calcResultKind (calcVersion ⟨['2', 'x', '1'], ['2', 'y', '3']⟩) ∧
    ((∃ c, calcVersion ⟨['2'], ['2', '.', '3']⟩ = CalcResult.atoiError c) ∨
      ∃ w i, calcVersion ⟨['2'], ['2', '.', '3']⟩ = CalcResult.panicIndexOOB w i) ∧
    calcVersion ⟨[], ['2', '.', '3']⟩ = CalcResult.panicIndexOOB 0 0 ∧
    calcVersion ⟨digitChar 2 :: ['.'], ['2', '.', '3']⟩ =
      CalcResult.panicIndexOOB 0 2 ∧
    calcVersion ⟨[digitChar 2, '.', digitChar 1], []⟩ =
      CalcResult.panicIndexOOB 1 0 ∧
    calcVersion ⟨[digitChar 2, '.', digitChar 1], digitChar 2 :: ['.']⟩ =
      CalcResult.panicIndexOOB 1 2 :=
  ⟨calc_version_byte_indexing.1 ⟨['2', '.', '1', '9'], ['2', '.', '3']⟩
      ⟨['2', 'x', '1'], ['2', 'y', '3']⟩ rfl rfl rfl rfl,
   calc_version_byte_indexing.2.1 ⟨['2'], ['2', '.', '3']⟩ (Or.inl (by decide)),
   calc_version_byte_indexing.2.2.1 ['2', '.', '3'],
   calc_version_byte_indexing.2.2.2.1 2 ['.'] ['2', '.', '3']
      (by decide) (by decide),
   calc_version_byte_indexing.2.2.2.2.1 2 1 (by decide) (by decide),
   calc_version_byte_indexing.2.2.2.2.2.1 2 1 2 ['.']
      (by decide) (by decide) (by decide) (by decide)⟩

/-! ## Credential requests and `AttributeList` (the session request file)

The metadata-attribute helpers (`NewMetadataAttribute`, `setKeyCounter`,
`setCredentialTypeIdentifier`, `setSigningDate`, `setExpiryDate`) and
`NewCredentialInfo` live in files of the `irma` package that are not among
the given sources; they are modelled from the spec. The signing date is
wall-clock input, so it is an explicit parameter. -/

/-- Declared attribute type of a credential type (only its ID is read). -/
structure AttributeType where
  id : List Char
deriving DecidableEq, Repr

/-- Credential-type descriptor: the declared attribute types, in order. -/
structure CredentialType where
  attributes : List AttributeType
deriving DecidableEq, Repr

/-- The part of `irma.Configuration` that `AttributeList` reads. -/
structure Configuration where
  credentialTypes : List (List Char × CredentialType)
deriving DecidableEq, Repr

/-- Model of `irma.CredentialRequest`. The attribute map is an association
list with distinct keys (a Go map). -/
structure CredentialRequest where
  validity : Option Timestamp
  keyCounter : Nat
  credentialTypeID : List Char
  attributes : List (List Char × List Char)
deriving DecidableEq, Repr

/-- Model of `big.Int.SetBytes` on the bytes of a Go string: the string as
a big-endian base-256 integer. -/
def strToNatBE (s : List Char) : Nat :=
  s.foldl (fun n c => n * 256 + c.toNat) 0

/-- Modelled from the spec: the bit-packed metadata integer (spec section
3: version, credential type, signing date, expiry date, key counter). The
missing source packs these fields bitwise; the claims only observe that
this integer occupies index 0, so the model packs them injectively without
fixing a layout. `setExpiryDate` defaults to signing date plus six months
when no validity is given. -/
def metadataAttributeInt (keyCounter : Nat) (credTypeId : List Char)
    (signingDate : Nat) (validity : Option Timestamp) : Nat :=
  let expiry : Nat :=
    match validity with
    | none => signingDate + 15552000
    | some t => t.sec.natAbs
  ((strToNatBE credTypeId * 65536 + keyCounter) * 4294967296 + signingDate) *
      4294967296 + expiry

/-- The per-attribute loop of `AttributeList`: values of the declared
attribute types, in declared order, each read from the request's map and
converted with `SetBytes`; `none` as soon as a declared attribute is
missing from the map. -/
def attrValuesLoop (m : List (List Char × List Char)) :
    List AttributeType → Option (List Nat)
  | [] => some []
  | a :: rest =>
    match m.lookup a.id with
    | some str => (attrValuesLoop m rest).map fun vs => strToNatBE str :: vs
    | none => none

/-- Model of `CredentialRequest.AttributeList`. `now` is the wall clock
read by `setSigningDate`. -/
def CredentialRequest.AttributeList (cr : CredentialRequest)
    (conf : Configuration) (now : Nat) : Except (List Char) (List Nat) :=
  let meta := metadataAttributeInt cr.keyCounter cr.credentialTypeID now cr.validity
  match conf.credentialTypes.lookup cr.credentialTypeID with
  | none => Except.error ("Unknown credential type".data)
  | some credtype =>
    if credtype.attributes.length ≠ cr.attributes.length then
      Except.error ("Received unexpected amount of attributes".data)
    else
      match attrValuesLoop cr.attributes credtype.attributes with
      | none => Except.error ("Unknown attribute".data)
      | some vals => Except.ok (meta :: vals)

/-- Modelled from the spec: the preview record shown in the consent
dialog, built from the attribute integers. -/
structure CredentialInfo where
  ints : List Nat
deriving DecidableEq, Repr

/-- Model of `CredentialRequest.Info`: `AttributeList`, then
`NewCredentialInfo` on its integers. -/
def CredentialRequest.Info (cr : CredentialRequest) (conf : Configuration)
    (now : Nat) : Except (List Char) CredentialInfo :=
  match cr.AttributeList conf now with
  | Except.error e => Except.error e
  | Except.ok l => Except.ok ⟨l⟩

theorem lookup_isSome_iff_mem_keys (m : List (List Char × List Char))
    (k : List Char) :
    (m.lookup k).isSome = true ↔ k ∈ m.map Prod.fst := by
  induction m with
  | nil => simp [List.lookup]
  | cons p rest ih =>
    obtain ⟨a, b⟩ := p
    by_cases h : k = a
    · subst h
      simp [List.lookup]
    · have hbeq : (k == a) = false := beq_eq_false_iff_ne.mpr h
      simp only [List.lookup, hbeq, List.map_cons, List.mem_cons]
      rw [ih]
      constructor
      · exact Or.inr
      · rintro (rfl | hm)
        · exact absurd rfl h
        · exact hm

theorem attrValuesLoop_eq_some (m : List (List Char × List Char))
    (ats : List AttributeType)
    (h : ∀ a ∈ ats, (m.lookup a.id).isSome = true) :
    attrValuesLoop m ats =
      some (ats.map fun a => strToNatBE ((m.lookup a.id).getD [])) := by
  induction ats with
  | nil => rfl
  | cons a rest ih =>
    have ha := h a (by simp)
    obtain ⟨str, hstr⟩ := Option.isSome_iff_exists.mp ha
    simp only [attrValuesLoop, hstr, List.map_cons]
    rw [ih fun a ha => h a (by simp [ha])]
    simp [hstr]

theorem attrValuesLoop_some_inv (m : List (List Char × List Char))
    (ats : List AttributeType) (vs : List Nat)
    (h : attrValuesLoop m ats = some vs) :
    (∀ a ∈ ats, (m.lookup a.id).isSome = true) ∧
      vs = ats.map fun a => strToNatBE ((m.lookup a.id).getD []) := by
  induction ats generalizing vs with
  | nil =>
    cases h
    simp
  | cons a rest ih =>
    simp only [attrValuesLoop] at h
    cases hstr : m.lookup a.id with
    | none => rw [hstr] at h; cases h
    | some str =>
      rw [hstr] at h
      cases hrest : attrValuesLoop m rest with
      | none => rw [hrest] at h; cases h
      | some vs' =>
        rw [hrest] at h
        obtain ⟨hall, hshape⟩ := ih vs' hrest
        simp only [Option.map_some] at h
        cases h
        refine ⟨?_, ?_⟩
        · intro a' ha'
          rcases List.mem_cons.mp ha' with rfl | hm
          · simp [hstr]
          · exact hall a' hm
        · simp [hstr, hshape]

/-- C5: `AttributeList` (and hence the `Info` preview built from it)
succeeds iff the credential type is known and the request's attribute-map
keys are exactly the declared attribute types (a permutation — no more, no
fewer); on success the list is the metadata integer followed by the
declared attributes' values, as big-endian byte encodings of the supplied
strings, in declared order. The `Nodup` hypothesis reflects that the
declared attribute IDs of a credential-type descriptor are distinct. -/
theorem credential_request_attribute_list (cr : CredentialRequest)
    (conf : Configuration) (now : Nat) :
    (conf.credentialTypes.lookup cr.credentialTypeID = none →
      cr.AttributeList conf now = Except.error ("Unknown credential type".data)) ∧
    (∀ ct, conf.credentialTypes.lookup cr.credentialTypeID = some ct →
      ((ct.attributes.map AttributeType.id).Nodup →
        ((∃ l, cr.AttributeList conf now = Except.ok l) ↔
          (cr.attributes.map Prod.fst).Perm (ct.attributes.map AttributeType.id))) ∧
      ∀ l, cr.AttributeList conf now = Except.ok l →
        l = metadataAttributeInt cr.keyCounter cr.credentialTypeID now cr.validity ::
          ct.attributes.map fun a => strToNatBE ((cr.attributes.lookup a.id).getD [])) ∧
    (∀ l, cr.Info conf now = Except.ok ⟨l⟩ ↔ cr.AttributeList conf now = Except.ok l) := by
  refine ⟨?_, ?_, ?_⟩
  · intro hnone
    unfold CredentialRequest.AttributeList
    rw [hnone]
  · intro ct hct
    have hunfold : cr.AttributeList conf now =
        (if ct.attributes.length ≠ cr.attributes.length then
          Except.error ("Received unexpected amount of attributes".data)
        else
          match attrValuesLoop cr.attributes ct.attributes with
          | none => Except.error ("Unknown attribute".data)
          | some vals =>
            Except.ok (metadataAttributeInt cr.keyCounter cr.credentialTypeID
              now cr.validity :: vals)) := by
      unfold CredentialRequest.AttributeList
      rw [hct]
    constructor
    · intro hnodup
      rw [hunfold]
      by_cases hlen : ct.attributes.length ≠ cr.attributes.length
      · rw [if_pos hlen]
        constructor
        · rintro ⟨l, hl⟩
          cases hl
        · intro hperm
          have := hperm.length_eq
          simp only [List.length_map] at this
          omega
      · rw [if_neg hlen]
        push_neg at hlen
        cases hloop : attrValuesLoop cr.attributes ct.attributes with
        | none =>
          constructor
          · rintro ⟨l, hl⟩
            cases hl
          · intro hperm
            have hall : ∀ a ∈ ct.attributes, (cr.attributes.lookup a.id).isSome = true := by
              intro a ha
              rw [lookup_isSome_iff_mem_keys]
              have hmem : a.id ∈ ct.attributes.map AttributeType.id :=
                List.mem_map_of_mem _ ha
              exact hperm.mem_iff.mpr hmem
            rw [attrValuesLoop_eq_some _ _ hall] at hloop
            cases hloop
        | some vals =>
          constructor
          · intro _
            have hall := (attrValuesLoop_some_inv _ _ _ hloop).1
            have hsub : (ct.attributes.map AttributeType.id) ⊆
                cr.attributes.map Prod.fst := by
              intro x hx
              obtain ⟨a, ha, rfl⟩ := List.mem_map.mp hx
              rw [← lookup_isSome_iff_mem_keys]
              exact hall a ha
            have hsubperm := List.subperm_of_subset hnodup hsub
            have hlen2 : (cr.attributes.map Prod.fst).length ≤
                (ct.attributes.map AttributeType.id).length := by
              simp [hlen]
            exact (hsubperm.perm_of_length_le hlen2).symm
          · intro _
            exact ⟨_, rfl⟩
    · intro l hl
      rw [hunfold] at hl
      by_cases hlen : ct.attributes.length ≠ cr.attributes.length
      · rw [if_pos hlen] at hl
        cases hl
      · rw [if_neg hlen] at hl
        cases hloop : attrValuesLoop cr.attributes ct.attributes with
        | none =>
          rw [hloop] at hl
          cases hl
        | some vals =>
          rw [hloop] at hl
          cases hl
          rw [(attrValuesLoop_some_inv _ _ _ hloop).2]
  · intro l
    unfold CredentialRequest.Info
    cases h : cr.AttributeList conf now with
    | error e => simp
    | ok l' =>
      simp only []
      constructor
      · rintro ⟨⟩
        rfl
      · rintro ⟨⟩
        rfl

theorem credential_request_attribute_list_witness :
    (∃ l, CredentialRequest.AttributeList
        ⟨none, 0, ['c'], [(['s'], ['4', '5', '6'])]⟩
        ⟨[(['c'], ⟨[⟨['s']⟩]⟩)]⟩ 100 = Except.ok l) ∧
    CredentialRequest.AttributeList ⟨none, 0, ['c'], []⟩
        ⟨[]⟩ 100 = Except.error ("Unknown credential type".data) :=
  ⟨(((credential_request_attribute_list
        ⟨none, 0, ['c'], [(['s'], ['4', '5', '6'])]⟩
        ⟨[(['c'], ⟨[⟨['s']⟩]⟩)]⟩ 100).2.1 ⟨[⟨['s']⟩]⟩ (by decide)).1
      (by decide)).mpr (by decide),
   (credential_request_attribute_list ⟨none, 0, ['c'], []⟩ ⟨[]⟩ 100).1 (by decide)⟩

/-! ## SHA-256 (Go `crypto/sha256`, modelled from FIPS 180-4 over byte
lists, 32-bit words as naturals reduced mod `2^32`) -/

/-- Reduce to a 32-bit word. -/
def w32 (x : Nat) : Nat := x % 4294967296

/-- Right rotation of a 32-bit word. -/
def rotr32 (n x : Nat) : Nat := (x >>> n) + (x % 2 ^ n) * 2 ^ (32 - n)

/-- Bitwise complement of a 32-bit word. -/
def not32 (x : Nat) : Nat := x ^^^ 4294967295

def sha256Ch (e f g : Nat) : Nat := (e &&& f) ^^^ (not32 e &&& g)

def sha256Maj (a b c : Nat) : Nat := (a &&& b) ^^^ (a &&& c) ^^^ (b &&& c)

def sha256BSig0 (x : Nat) : Nat := rotr32 2 x ^^^ rotr32 13 x ^^^ rotr32 22 x

def sha256BSig1 (x : Nat) : Nat := rotr32 6 x ^^^ rotr32 11 x ^^^ rotr32 25 x

def sha256SSig0 (x : Nat) : Nat := rotr32 7 x ^^^ rotr32 18 x ^^^ (x >>> 3)

def sha256SSig1 (x : Nat) : Nat := rotr32 17 x ^^^ rotr32 19 x ^^^ (x >>> 10)

/-- The SHA-256 round constants (FIPS 180-4, in decimal). -/
def sha256K : List Nat :=
  [1116352408, 1899447441, 3049323471, 3921009573, 961987163,
   1508970993, 2453635748, 2870763221, 3624381080, 310598401,
   607225278, 1426881987, 1925078388, 2162078206, 2614888103,
   3248222580, 3835390401, 4022224774, 264347078, 604807628,
   770255983, 1249150122, 1555081692, 1996064986, 2554220882,
   2821834349, 2952996808, 3210313671, 3336571891, 3584528711,
   113926993, 338241895, 666307205, 773529912, 1294757372,
   1396182291, 1695183700, 1986661051, 2177026350, 2456956037,
   2730485921, 2820302411, 3259730800, 3345764771, 3516065817,
   3600352804, 4094571909, 275423344, 430227734, 506948616,
   659060556, 883997877, 958139571, 1322822218, 1537002063,
   1747873779, 1955562222, 2024104815, 2227730452, 2361852424,
   2428436474, 2756734187, 3204031479, 3329325298]

/-- The SHA-256 initial hash value (FIPS 180-4, in decimal). -/
def sha256H0 : List Nat :=
  [1779033703, 3144134277, 1013904242, 2773480762,
   1359893119, 2600822924, 528734635, 1541459225]

/-- Fixed-width big-endian byte rendering of a natural number. -/
def natToBEBytesFixed (w n : Nat) : List Nat :=
  (List.range w).map fun i => n / 256 ^ (w - 1 - i) % 256

/-- SHA-256 padding: `0x80`, zeros to 56 mod 64, then the 64-bit
big-endian bit length. -/
def sha256Pad (msg : List Nat) : List Nat :=
  let L := msg.length
  let z := (64 + 55 - L % 64) % 64
  msg ++ 128 :: List.replicate z 0 ++ natToBEBytesFixed 8 (8 * L)

/-- Split into 64-byte blocks. -/
def chunks64 (l : List Nat) : List (List Nat) :=
  if l = [] then []
  else l.take 64 :: chunks64 (l.drop 64)
  termination_by l.length
  decreasing_by
    rename_i h
    simp only [List.length_drop]
    have hl : 0 < l.length := List.length_pos.mpr h
    omega

/-- The sixteen big-endian 32-bit words of a 64-byte block. -/
def blockWords (b : List Nat) : Array Nat :=
  ((List.range 16).map fun i =>
    b.getD (4 * i) 0 * 16777216 + b.getD (4 * i + 1) 0 * 65536 +
      b.getD (4 * i + 2) 0 * 256 + b.getD (4 * i + 3) 0).toArray

/-- Message-schedule extension to 64 words. -/
def sha256Schedule (ws : Array Nat) : Array Nat :=
  (List.range 48).foldl
    (fun w _ =>
      w.push (w32 (sha256SSig1 (w.getD (w.size - 2) 0) + w.getD (w.size - 7) 0 +
        sha256SSig0 (w.getD (w.size - 15) 0) + w.getD (w.size - 16) 0)))
    ws

/-- One compression round on the eight-word working state. -/
def sha256Round (w : Array Nat) (st : List Nat) (i : Nat) : List Nat :=
  match st with
  | [a, b, c, d, e, f, g, h] =>
    let t1 := w32 (h + sha256BSig1 e + sha256Ch e f g +
      sha256K.getD i 0 + w.getD i 0)
    let t2 := w32 (sha256BSig0 a + sha256Maj a b c)
    [w32 (t1 + t2), a, b, c, w32 (d + t1), e, f, g]
  | _ => st

/-- Compression of one 64-byte block into the hash state. -/
def sha256Compress (h : List Nat) (block : List Nat) : List Nat :=
  let w := sha256Schedule (blockWords block)
  let st := (List.range 64).foldl (sha256Round w) h
  (h.zip st).map fun p => w32 (p.1 + p.2)

/-- SHA-256 digest (32 bytes) of a byte list. -/
def sha256 (msg : List Nat) : List Nat :=
  ((chunks64 (sha256Pad msg)).foldl sha256Compress sha256H0).flatMap
    (natToBEBytesFixed 4)

/-- Model of `big.Int.SetBytes` / the big-endian integer reading of a
digest. -/
def beBytesToNat (bs : List Nat) : Nat :=
  bs.foldl (fun n b => n * 256 + b) 0

/-! ## DER marshalling (Go `encoding/asn1`, for
`asn1.Marshal([]interface{}{big.NewInt(2), nonce, hashint})`) -/

/-- Minimal big-endian bytes of a natural number (`big.Int.Bytes`); empty
for zero. -/
def natToBEBytesMin (n : Nat) : List Nat :=
  if n = 0 then [] else natToBEBytesMin (n / 256) ++ [n % 256]
  termination_by n
  decreasing_by exact Nat.div_lt_self (by omega) (by omega)

/-- Content octets of a DER INTEGER, following `makeBigInt` of
`encoding/asn1`: two's complement, minimal, sign-correct. -/
def derIntContent (i : Int) : List Nat :=
  if i < 0 then
    let bytes := (natToBEBytesMin (-i - 1).toNat).map fun b => b ^^^ 255
    match bytes with
    | [] => [255]
    | b :: _ => if b &&& 128 = 0 then 255 :: bytes else bytes
  else if i = 0 then [0]
  else
    let bytes := natToBEBytesMin i.toNat
    match bytes with
    | [] => [0]
    | b :: _ => if b &&& 128 ≠ 0 then 0 :: bytes else bytes

/-- DER length octets (short form below 128, long form above). -/
def derLen (n : Nat) : List Nat :=
  if n < 128 then [n]
  else
    let lenBytes := natToBEBytesMin n
    (128 + lenBytes.length) :: lenBytes

/-- A DER INTEGER (tag `0x02`). -/
def derInt (i : Int) : List Nat :=
  let c := derIntContent i
  2 :: (derLen c.length ++ c)

/-- DER encoding of the three-element SEQUENCE (tag `0x30`) that
`asn1.Marshal` produces for a slice of three `*big.Int`. -/
def derSeq3Ints (a b c : Int) : List Nat :=
  let payload := derInt a ++ derInt b ++ derInt c
  48 :: (derLen payload.length ++ payload)

/-! ## `SignatureRequest.GetNonce` -/

/-- The fields of `irma.SignatureRequest` read by `GetNonce`: the message
(its UTF-8 bytes) and the embedded session nonce. -/
structure SignatureRequest where
  message : List Nat
  nonce : Int
deriving DecidableEq, Repr

/-- Model of `SignatureRequest.GetNonce`: hash the message, read the
digest as a big integer, DER-encode `[INTEGER 2, nonce, hash]`, hash the
encoding and read that digest as the effective nonce. The `asn1.Marshal`
error slot is dead for this input shape (the source only logs it). -/
def SignatureRequest.GetNonce (sr : SignatureRequest) : Nat :=
  let hashbytes := sha256 sr.message
  let hashint := beBytesToNat hashbytes
  let asn1bytes := derSeq3Ints 2 sr.nonce hashint
  beBytesToNat (sha256 asn1bytes)

/-- C1: for every signature request with message `m` and nonce `n`,
`GetNonce` returns exactly the big integer whose bytes are
`SHA256(DER(SEQUENCE [INTEGER 2, n, SHA256(m) as integer]))`,
byte for byte. -/
theorem signature_request_get_nonce (m : List Nat) (n : Int) :
    SignatureRequest.GetNonce ⟨m, n⟩ =
      beBytesToNat (sha256 (derSeq3Ints 2 n (beBytesToNat (sha256 m)))) :=
  rfl

/-! ## Android legacy log entries (the legacy file of package `irma`)

`androidLogEntry.GetTime` replaces the first `+` with `" +"` and calls Go
`time.Parse` with the fixed layout
`"January 2, 2006 3:04:05 PM MST -07:00"`. `time.Parse` is modelled
specialised to that layout constant: long month name (case-insensitive
ASCII match), 1-2 digit day, literal `", "`, 4-digit year, 1-2 digit
12-hour clock (at most 12), zero-padded minute and second (below 60),
exact `PM`/`AM`, a timezone abbreviation (with Go's `GMT`+offset special
case), then a literal space and a `±hh:mm` numeric offset, which — being
present — determines the instant; trailing text and day-of-month out of
range are errors. -/

/-- Go `time`'s case-insensitive ASCII byte comparison (`match`): equal,
or equal after `|0x20` when that lands in `a..z`. -/
def goCharMatch (c1 c2 : Char) : Bool :=
  c1 == c2 ||
    (((c1.toNat ||| 32) == (c2.toNat ||| 32)) &&
      decide (97 ≤ (c1.toNat ||| 32)) && decide ((c1.toNat ||| 32) ≤ 122))

/-- Consume a fixed name from the front of the value, case-insensitively;
`none` on mismatch or if the value is too short. -/
def matchName : List Char → List Char → Option (List Char)
  | [], v => some v
  | _ :: _, [] => none
  | n :: ns, c :: cs => if goCharMatch n c then matchName ns cs else none

/-- The long month names, with their month numbers. -/
def longMonthNames : List (List Char × Nat) :=
  [("January".data, 1), ("February".data, 2), ("March".data, 3),
   ("April".data, 4), ("May".data, 5), ("June".data, 6),
   ("July".data, 7), ("August".data, 8), ("September".data, 9),
   ("October".data, 10), ("November".data, 11), ("December".data, 12)]

/-- Go `time`'s `lookup` over the month-name table: first name matching a
prefix of the value. -/
def lookupMonth : List (List Char × Nat) → List Char → Option (Nat × List Char)
  | [], _ => none
  | (name, idx) :: rest, v =>
    match matchName name v with
    | some r => some (idx, r)
    | none => lookupMonth rest v

def parseMonthName (v : List Char) : Option (Nat × List Char) :=
  lookupMonth longMonthNames v

/-- Go `time`'s `getnum` with `fixed = false`: one digit, or two if the
second byte is also a digit. -/
def getnumVar (v : List Char) : Option (Nat × List Char) :=
  match v with
  | [] => none
  | c1 :: rest =>
    match digitVal c1 with
    | none => none
    | some d1 =>
      match rest with
      | c2 :: rest2 =>
        match digitVal c2 with
        | some d2 => some (10 * d1 + d2, rest2)
        | none => some (d1, rest)
      | [] => some (d1, [])

/-- Go `time`'s `getnum` with `fixed = true`: exactly two digits. -/
def getnum2fixed (v : List Char) : Option (Nat × List Char) :=
  match v with
  | c1 :: c2 :: rest =>
    match digitVal c1, digitVal c2 with
    | some d1, some d2 => some (10 * d1 + d2, rest)
    | _, _ => none
  | _ => none

/-- Go `time`'s year scan for layout `2006`: exactly four digits. -/
def getnum4 (v : List Char) : Option (Nat × List Char) :=
  match v with
  | c1 :: c2 :: c3 :: c4 :: rest =>
    match digitVal c1, digitVal c2, digitVal c3, digitVal c4 with
    | some d1, some d2, some d3, some d4 =>
      some (1000 * d1 + 100 * d2 + 10 * d3 + d4, rest)
    | _, _, _, _ => none
  | _ => none

/-- Consume one expected literal byte. -/
def expectChar (c : Char) (v : List Char) : Option (List Char) :=
  match v with
  | x :: rest => if x = c then some rest else none
  | [] => none

/-- Layout element `PM`: exactly `PM` or `AM`; `true` means PM. -/
def parseAMPM (v : List Char) : Option (Bool × List Char) :=
  match v with
  | 'P' :: 'M' :: rest => some (true, rest)
  | 'A' :: 'M' :: rest => some (false, rest)
  | _ => none

def isUpperCh (c : Char) : Bool :=
  decide (65 ≤ c.toNat) && decide (c.toNat ≤ 90)

/-- Leading decimal digits (`leadingInt` of Go `time`, value only). -/
def leadingDigits : List Char → Nat × List Char
  | [] => (0, [])
  | c :: cs =>
    match digitVal c with
    | none => (0, c :: cs)
    | some _ =>
      let r := leadingDigits cs
      (r.1 + 1, r.2)

/-- Go `time`'s `parseGMT` tail: bytes consumed after `GMT` (a signed
small hour offset is swallowed into the zone name). -/
def parseGMTExtra (v : List Char) : Nat :=
  match v with
  | [] => 0
  | s :: rest =>
    if s = '-' ∨ s = '+' then
      let r := leadingDigits rest
      if r.1 = 0 then 0
      else
        let x := (parseNatDigits (rest.take r.1)).getD 0
        if x = 0 ∨ 14 < x then 0 else 1 + r.1
    else 0

/-- Go `time`'s `parseTimeZone`: length of the timezone abbreviation at
the front of the value, `none` if there is none. -/
def parseTimeZoneLen (v : List Char) : Option Nat :=
  if v.length < 3 then none
  else if v.take 4 = ['C', 'h', 'S', 'T'] ∨ v.take 4 = ['M', 'e', 'S', 'T'] then
    some 4
  else if v.take 3 = ['G', 'M', 'T'] then some (3 + parseGMTExtra (v.drop 3))
  else
    match min (v.takeWhile isUpperCh).length 6 with
    | 3 => some 3
    | 4 =>
      if v.getD 3 ' ' = 'T' ∨ v.take 4 = ['W', 'I', 'T', 'A'] then some 4
      else none
    | 5 => if v.getD 4 ' ' = 'T' then some 5 else none
    | _ => none

/-- Layout element `-07:00` (`stdNumColonTZ`): sign, two digits, colon,
two digits; seconds east of UTC. -/
def parseNumColonTZ (v : List Char) : Option (Int × List Char) :=
  match v with
  | s :: h1 :: h2 :: ':' :: m1 :: m2 :: rest =>
    if s = '+' ∨ s = '-' then
      match digitVal h1, digitVal h2, digitVal m1, digitVal m2 with
      | some a, some b, some c, some d =>
        let off : Int := ((10 * a + b) * 60 + (10 * c + d)) * 60
        some (if s = '-' then -off else off, rest)
      | _, _, _, _ => none
    else none
  | _ => none

def isLeapYear (y : Nat) : Bool :=
  (y % 4 == 0 && y % 100 != 0) || y % 400 == 0

def daysInMonth (m y : Nat) : Nat :=
  match m with
  | 1 => 31 | 3 => 31 | 5 => 31 | 7 => 31 | 8 => 31 | 10 => 31 | 12 => 31
  | 4 => 30 | 6 => 30 | 9 => 30 | 11 => 30
  | 2 => if isLeapYear y then 29 else 28
  | _ => 0

/-- Days since the Unix epoch of a proleptic-Gregorian civil date
(Howard Hinnant's `days_from_civil`, with Lean's floor division on
`Int`). -/
def daysFromCivil (y : Int) (m d : Nat) : Int :=
  let yy := if m ≤ 2 then y - 1 else y
  let era := yy / 400
  let yoe := (yy - era * 400).toNat
  let doy := (153 * (if 2 < m then m - 3 else m + 9) + 2) / 5 + d - 1
  let doe := yoe * 365 + yoe / 4 - yoe / 100 + doy
  era * 146097 + (doe : Int) - 719468

/-- Unix seconds denoted by a civil UTC datetime. -/
def civilUnix (year mon day h24 minute second : Nat) : Int :=
  daysFromCivil (year : Int) mon day * 86400 +
    ((h24 * 3600 + minute * 60 + second : Nat) : Int)

/-- Date part of the layout, `"January 2, 2006"`: month name, space,
1-2 digit day, literal `", "`, four-digit year. -/
def parseDatePart (v0 : List Char) : Option (Nat × Nat × Nat × List Char) :=
  match parseMonthName v0 with
  | none => none
  | some (mon, v1) =>
    match expectChar ' ' v1 with
    | none => none
    | some v2 =>
      match getnumVar v2 with
      | none => none
      | some (day, v3) =>
        match expectChar ',' v3 with
        | none => none
        | some v4 =>
          match expectChar ' ' v4 with
          | none => none
          | some v5 =>
            match getnum4 v5 with
            | none => none
            | some (year, v6) => some (mon, day, year, v6)

/-- Clock part of the layout, `" 3:04:05 PM"`: 1-2 digit 12-hour clock
(at most 12), zero-padded minute and second (below 60), exact `PM`/`AM`,
with the scan-time range checks Go performs. -/
def parseClockPart (v6 : List Char) :
    Option (Nat × Nat × Nat × Bool × List Char) :=
  match expectChar ' ' v6 with
  | none => none
  | some v7 =>
    match getnumVar v7 with
    | none => none
    | some (hour12, v8) =>
      if 12 < hour12 then none
      else
        match expectChar ':' v8 with
        | none => none
        | some v9 =>
          match getnum2fixed v9 with
          | none => none
          | some (minute, v10) =>
            if 60 ≤ minute then none
            else
              match expectChar ':' v10 with
              | none => none
              | some v11 =>
                match getnum2fixed v11 with
                | none => none
                | some (second, v12) =>
                  if 60 ≤ second then none
                  else
                    match expectChar ' ' v12 with
                    | none => none
                    | some v13 =>
                      match parseAMPM v13 with
                      | none => none
                      | some (pm, v14) => some (hour12, minute, second, pm, v14)

/-- Go `time.Parse`'s `stdTZ` handler: a value starting with the three
bytes `UTC` sets the UTC location directly (`z = UTC`) and consumes them,
short-circuiting `parseTimeZone`; otherwise the abbreviation is scanned
with `parseTimeZone`. Returns whether the `UTC` special case fired and the
number of bytes consumed. -/
def parseStdTZ (v : List Char) : Option (Bool × Nat) :=
  if v.take 3 = ['U', 'T', 'C'] then some (true, 3)
  else
    match parseTimeZoneLen v with
    | some n => some (false, n)
    | none => none

/-- Zone-and-offset part of the layout, `" MST -07:00"`: a space, the
timezone abbreviation, a space, the numeric offset. At the end of Go's
`parse`, the `if z != nil` return fires before the `zoneOffset` branch, so
when the `UTC` special case set `z` the parsed numeric offset is ignored
(effective offset zero); otherwise the offset determines the instant. -/
def parseZoneOffsetPart (v14 : List Char) : Option (Int × List Char) :=
  match expectChar ' ' v14 with
  | none => none
  | some v15 =>
    match parseStdTZ v15 with
    | none => none
    | some (isUTC, zlen) =>
      match expectChar ' ' (v15.drop zlen) with
      | none => none
      | some v17 =>
        match parseNumColonTZ v17 with
        | none => none
        | some (off, v18) => some ((if isUTC then 0 else off), v18)

/-- Model of Go `time.Parse` at the layout constant
`androidLogTimeFormat = "January 2, 2006 3:04:05 PM MST -07:00"`:
the parsed instant (seconds precision; the layout has no fractional
part), or `none` on any parse error — including trailing text and a
day-of-month out of range for the month. -/
def timeParseAndroidLayout (v0 : List Char) : Option Timestamp :=
  match parseDatePart v0 with
  | none => none
  | some (mon, day, year, v6) =>
    match parseClockPart v6 with
    | none => none
    | some (hour12, minute, second, pm, v14) =>
      match parseZoneOffsetPart v14 with
      | none => none
      | some (off, v18) =>
        if v18 ≠ [] then none
        else if day < 1 ∨ daysInMonth mon year < day then none
        else
          let hour24 :=
            if pm ∧ hour12 < 12 then hour12 + 12
            else if ¬pm ∧ hour12 = 12 then 0
            else hour12
          some ⟨civilUnix year mon day hour24 minute second - off, 0⟩

/-- Model of `strings.Replace(s, "+", " +", 1)`. -/
def stringsReplacePlus1 : List Char → List Char
  | [] => []
  | c :: rest =>
    if c = '+' then ' ' :: '+' :: rest else c :: stringsReplacePlus1 rest

/-- The Unix seconds of Go's zero `time.Time` (January 1, year 1, UTC),
which `time.Parse` returns alongside an error. -/
def goZeroTimeUnix : Int := -62135596800

/-- The fields of `androidLogEntry` (the embedded `credential.identifier`
is irrelevant to the claims). -/
structure AndroidLogEntry where
  time : List Char
deriving DecidableEq, Repr

/-- Model of `androidLogEntry.GetTime`: inject a space before the first
`+`, parse with the fixed layout, and ignore the error (yielding the zero
time on failure, as the discarded `err` does in Go). -/
def AndroidLogEntry.GetTime (entry : AndroidLogEntry) : Timestamp :=
  match timeParseAndroidLayout (stringsReplacePlus1 entry.time) with
  | some t => t
  | none => ⟨goZeroTimeUnix, 0⟩

/-- Model of `androidLogEnvelope`: the type tag and the raw JSON value
(payload decoding is outside the claims and kept opaque). -/
structure AndroidLogEnvelope where
  type : List Char
  value : List Char
deriving DecidableEq, Repr

/-- The typed values `androidLogEnvelope.Parse` dispatches to, each
carrying its raw JSON. -/
inductive AndroidLogValue
  | verification (value : List Char)
  | issuance (value : List Char)
  | signature (value : List Char)
  | removal (value : List Char)
deriving DecidableEq, Repr

/-- Model of `androidLogEnvelope.Parse`: dispatch on the four type tags,
error on anything else. -/
def AndroidLogEnvelope.Parse (env : AndroidLogEnvelope) :
    Except (List Char) AndroidLogValue :=
  if env.type = "verification".data then
    Except.ok (AndroidLogValue.verification env.value)
  else if env.type = "issue".data then
    Except.ok (AndroidLogValue.issuance env.value)
  else if env.type = "signature".data then
    Except.ok (AndroidLogValue.signature env.value)
  else if env.type = "remove".data then
    Except.ok (AndroidLogValue.removal env.value)
  else Except.error ("Invalid Android log type".data)

/-- The name of month `m` (empty outside `1..12`). -/
def monthName (m : Nat) : List Char :=
  ((longMonthNames.find? fun p => p.2 == m).map Prod.fst).getD []

/-- Two-digit zero-padded decimal rendering (for values below 100). -/
def render2 (n : Nat) : List Char := [digitChar (n / 10), digitChar (n % 10)]

/-- Four-digit zero-padded decimal rendering (for values below 10000). -/
def render4 (n : Nat) : List Char :=
  [digitChar (n / 1000), digitChar (n / 100 % 10), digitChar (n / 10 % 10),
    digitChar (n % 10)]

/-- An Android-legacy timestamp string in the layout's shape, with an
explicit offset sign byte and an explicit choice of whether a space
separates the zone abbreviation from the offset. -/
def renderAndroidTime (mon day year h12 minute second : Nat) (pm : Bool)
    (zone : List Char) (spaceBeforeOffset : Bool) (sgn : Char)
    (offH offM : Nat) : List Char :=
  monthName mon ++ ' ' :: natDecChars day ++ ',' :: ' ' :: render4 year ++
    ' ' :: natDecChars h12 ++ ':' :: render2 minute ++ ':' :: render2 second ++
    ' ' :: (if pm then ['P', 'M'] else ['A', 'M']) ++ ' ' :: zone ++
    (if spaceBeforeOffset then [' '] else []) ++
    sgn :: render2 offH ++ ':' :: render2 offM

theorem natDecChars_one {n : Nat} (h : n < 10) :
    natDecChars n = [digitChar n] := by
  unfold natDecChars
  rw [if_pos h]

theorem natDecChars_two {n : Nat} (h10 : 10 ≤ n) (h100 : n < 100) :
    natDecChars n = [digitChar (n / 10), digitChar (n % 10)] := by
  unfold natDecChars
  rw [if_neg (by omega), natDecChars_one (by omega)]
  rfl

theorem parseMonthName_rendered {mon : Nat} (h1 : 1 ≤ mon) (h12 : mon ≤ 12)
    (rest : List Char) :
    parseMonthName (monthName mon ++ rest) = some (mon, rest) := by
  interval_cases mon <;> rfl

theorem getnumVar_rendered {n : Nat} (h : n < 100) {c : Char}
    (hc : digitVal c = none) (rest : List Char) :
    getnumVar (natDecChars n ++ c :: rest) = some (n, c :: rest) := by
  by_cases h10 : n < 10
  · rw [natDecChars_one h10]
    simp only [List.cons_append, List.nil_append, getnumVar,
      digitVal_digitChar h10, hc]
  · rw [natDecChars_two (by omega) h]
    have hd1 : n / 10 < 10 := by omega
    have hd2 : n % 10 < 10 := by omega
    simp only [List.cons_append, List.nil_append, getnumVar,
      digitVal_digitChar hd1, digitVal_digitChar hd2]
    congr 1
    congr 1
    omega

theorem getnum2fixed_rendered {n : Nat} (h : n < 100) (rest : List Char) :
    getnum2fixed (render2 n ++ rest) = some (n, rest) := by
  have hd1 : n / 10 < 10 := by omega
  have hd2 : n % 10 < 10 := by omega
  simp only [render2, List.cons_append, List.nil_append, getnum2fixed,
    digitVal_digitChar hd1, digitVal_digitChar hd2]
  congr 2
  omega

theorem getnum4_rendered {n : Nat} (h : n < 10000) (rest : List Char) :
    getnum4 (render4 n ++ rest) = some (n, rest) := by
  have hd1 : n / 1000 < 10 := by omega
  have hd2 : n / 100 % 10 < 10 := by omega
  have hd3 : n / 10 % 10 < 10 := by omega
  have hd4 : n % 10 < 10 := by omega
  simp only [render4, List.cons_append, List.nil_append, getnum4,
    digitVal_digitChar hd1, digitVal_digitChar hd2, digitVal_digitChar hd3,
    digitVal_digitChar hd4]
  congr 2
  omega

theorem parseAMPM_rendered (pm : Bool) (rest : List Char) :
    parseAMPM ((if pm then ['P', 'M'] else ['A', 'M']) ++ rest) =
      some (pm, rest) := by
  cases pm <;> rfl

theorem parseTimeZoneLen_three_upper {a b c : Char}
    (ha : isUpperCh a = true) (hb : isUpperCh b = true)
    (hc : isUpperCh c = true) (rest : List Char) :
    parseTimeZoneLen (a :: b :: c :: ' ' :: rest) = some 3 := by
  unfold parseTimeZoneLen
  rw [if_neg (by simp)]
  rw [if_neg (by
    simp only [List.take, not_or]
    constructor <;> intro h <;> cases h)]
  by_cases hgmt : (a :: b :: c :: ' ' :: rest).take 3 = ['G', 'M', 'T']
  · rw [if_pos hgmt]
    have : (a :: b :: c :: ' ' :: rest).drop 3 = ' ' :: rest := rfl
    rw [this]
    rfl
  · rw [if_neg hgmt]
    have htw : (a :: b :: c :: ' ' :: rest).takeWhile isUpperCh =
        [a, b, c] := by
      simp [List.takeWhile, ha, hb, hc]
      rfl
    rw [htw]
    rfl

theorem parseNumColonTZ_rendered {offH offM : Nat} (hH : offH < 100)
    (hM : offM < 100) {sgn : Char} (hs : sgn = '+' ∨ sgn = '-')
    (rest : List Char) :
    parseNumColonTZ (sgn :: (render2 offH ++ (':' :: (render2 offM ++ rest)))) =
      some ((if sgn = '-' then -(((offH * 60 + offM) * 60 : Nat) : Int)
        else (((offH * 60 + offM) * 60 : Nat) : Int)), rest) := by
  have hd1 : offH / 10 < 10 := by omega
  have hd2 : offH % 10 < 10 := by omega
  have hd3 : offM / 10 < 10 := by omega
  have hd4 : offM % 10 < 10 := by omega
  simp only [render2, List.cons_append, List.nil_append, parseNumColonTZ,
    digitVal_digitChar hd1, digitVal_digitChar hd2, digitVal_digitChar hd3,
    digitVal_digitChar hd4]
  rw [if_pos hs]
  have harith : ((10 * ((offH / 10 : Nat) : Int) + ((offH % 10 : Nat) : Int)) * 60 +
      (10 * ((offM / 10 : Nat) : Int) + ((offM % 10 : Nat) : Int))) * 60 =
      (((offH * 60 + offM) * 60 : Nat) : Int) := by
    push_cast
    omega
  rw [harith]

theorem parseDatePart_rendered {mon day year : Nat} (h1 : 1 ≤ mon)
    (h2 : mon ≤ 12) (hday : day < 100) (hyear : year < 10000)
    (rest : List Char) :
    parseDatePart (monthName mon ++ (' ' :: (natDecChars day ++
        (',' :: ' ' :: (render4 year ++ rest))))) =
      some (mon, day, year, rest) := by
  unfold parseDatePart
  rw [parseMonthName_rendered h1 h2]
  simp only [expectChar, eq_self_iff_true, if_true]
  rw [getnumVar_rendered hday (show digitVal ',' = none by decide)]
  simp only [expectChar, eq_self_iff_true, if_true]
  rw [getnum4_rendered hyear]

theorem parseClockPart_rendered {h12 minute second : Nat} (hh : h12 ≤ 12)
    (hm : minute < 60) (hs : second < 60) (pm : Bool) (rest : List Char) :
    parseClockPart (' ' :: (natDecChars h12 ++ (':' :: (render2 minute ++
        (':' :: (render2 second ++ (' ' ::
          ((if pm then ['P', 'M'] else ['A', 'M']) ++ rest)))))))) =
      some (h12, minute, second, pm, rest) := by
  unfold parseClockPart
  simp only [expectChar, eq_self_iff_true, if_true]
  rw [getnumVar_rendered (by omega) (show digitVal ':' = none by decide)]
  simp only []
  rw [if_neg (by omega)]
  simp only [expectChar, eq_self_iff_true, if_true]
  rw [getnum2fixed_rendered (by omega)]
  simp only []
  rw [if_neg (by omega)]
  simp only [expectChar, eq_self_iff_true, if_true]
  rw [getnum2fixed_rendered (by omega)]
  simp only []
  rw [if_neg (by omega)]
  simp only [expectChar, eq_self_iff_true, if_true]
  rw [parseAMPM_rendered]

theorem parseStdTZ_three_upper {a b c : Char}
    (ha : isUpperCh a = true) (hb : isUpperCh b = true)
    (hc : isUpperCh c = true) (hnu : ¬(a = 'U' ∧ b = 'T' ∧ c = 'C'))
    (rest : List Char) :
    parseStdTZ (a :: b :: c :: ' ' :: rest) = some (false, 3) := by
  have hne : ¬((a :: b :: c :: ' ' :: rest).take 3 = ['U', 'T', 'C']) := by
    intro h
    apply hnu
    simpa using h
  unfold parseStdTZ
  rw [if_neg hne, parseTimeZoneLen_three_upper ha hb hc]

theorem parseStdTZ_utc (rest : List Char) :
    parseStdTZ ('U' :: 'T' :: 'C' :: rest) = some (true, 3) := rfl

theorem parseZoneOffsetPart_rendered {a b c : Char}
    (ha : isUpperCh a = true) (hb : isUpperCh b = true)
    (hc : isUpperCh c = true) (hnu : ¬(a = 'U' ∧ b = 'T' ∧ c = 'C'))
    {offH offM : Nat} (hH : offH < 100)
    (hM : offM < 100) {sgn : Char} (hsgn : sgn = '+' ∨ sgn = '-')
    (rest : List Char) :
    parseZoneOffsetPart (' ' :: a :: b :: c :: ' ' :: sgn ::
        (render2 offH ++ (':' :: (render2 offM ++ rest)))) =
      some ((if sgn = '-' then -(((offH * 60 + offM) * 60 : Nat) : Int)
        else (((offH * 60 + offM) * 60 : Nat) : Int)), rest) := by
  unfold parseZoneOffsetPart
  simp only [expectChar, eq_self_iff_true, if_true]
  rw [parseStdTZ_three_upper ha hb hc hnu]
  simp only [List.drop_succ_cons, List.drop_zero, expectChar,
    eq_self_iff_true, if_true]
  rw [parseNumColonTZ_rendered hH hM hsgn]
  rfl

theorem parseZoneOffsetPart_rendered_utc {offH offM : Nat} (hH : offH < 100)
    (hM : offM < 100) {sgn : Char} (hsgn : sgn = '+' ∨ sgn = '-')
    (rest : List Char) :
    parseZoneOffsetPart (' ' :: 'U' :: 'T' :: 'C' :: ' ' :: sgn ::
        (render2 offH ++ (':' :: (render2 offM ++ rest)))) =
      some (0, rest) := by
  unfold parseZoneOffsetPart
  simp only [expectChar, eq_self_iff_true, if_true]
  rw [parseStdTZ_utc]
  simp only [List.drop_succ_cons, List.drop_zero, expectChar,
    eq_self_iff_true, if_true]
  rw [parseNumColonTZ_rendered hH hM hsgn]

theorem digitChar_ne_plus_all (n : Nat) : digitChar n ≠ '+' := by
  unfold digitChar
  split <;> decide

theorem plus_not_mem_natDecChars (n : Nat) : '+' ∉ natDecChars n := by
  induction n using Nat.strong_induction_on with
  | _ n ih =>
    unfold natDecChars
    split
    · simp
      exact fun h => absurd h.symm (digitChar_ne_plus_all n)
    · next h =>
      simp only [List.mem_append, List.mem_singleton]
      rintro (hm | hm)
      · exact ih (n / 10) (Nat.div_lt_self (by omega) (by omega)) hm
      · exact absurd hm.symm (digitChar_ne_plus_all (n % 10))

theorem plus_not_mem_render2 (n : Nat) : '+' ∉ render2 n := by
  simp only [render2, List.mem_cons, List.not_mem_nil, or_false]
  rintro (hm | hm) <;> exact absurd hm.symm (digitChar_ne_plus_all _)

theorem plus_not_mem_render4 (n : Nat) : '+' ∉ render4 n := by
  simp only [render4, List.mem_cons, List.not_mem_nil, or_false]
  rintro (hm | hm | hm | hm) <;> exact absurd hm.symm (digitChar_ne_plus_all _)

theorem plus_not_mem_monthName {mon : Nat} (h1 : 1 ≤ mon) (h2 : mon ≤ 12) :
    '+' ∉ monthName mon := by
  interval_cases mon <;> decide

theorem plus_ne_of_upper {c : Char} (h : isUpperCh c = true) : '+' ≠ c := by
  intro heq
  subst heq
  simp [isUpperCh] at h

theorem replacePlus1_id {l : List Char} (h : '+' ∉ l) :
    stringsReplacePlus1 l = l := by
  induction l with
  | nil => rfl
  | cons c rest ih =>
    simp only [List.mem_cons, not_or] at h
    have hne : ¬c = '+' := fun hc => h.1 hc.symm
    simp only [stringsReplacePlus1, if_neg hne]
    rw [ih h.2]

theorem replacePlus1_append (p s : List Char) (h : '+' ∉ p) :
    stringsReplacePlus1 (p ++ '+' :: s) = p ++ ' ' :: '+' :: s := by
  induction p with
  | nil => rfl
  | cons c rest ih =>
    simp only [List.mem_cons, not_or] at h
    have hne : ¬c = '+' := fun hc => h.1 hc.symm
    simp only [List.cons_append, stringsReplacePlus1, if_neg hne,
      List.append_eq]
    rw [ih h.2]

theorem parseZoneOffsetPart_rendered_nil {a b c : Char}
    (ha : isUpperCh a = true) (hb : isUpperCh b = true)
    (hc : isUpperCh c = true) (hnu : ¬(a = 'U' ∧ b = 'T' ∧ c = 'C'))
    {offH offM : Nat} (hH : offH < 100)
    (hM : offM < 100) {sgn : Char} (hsgn : sgn = '+' ∨ sgn = '-') :
    parseZoneOffsetPart (' ' :: a :: b :: c :: ' ' :: sgn ::
        (render2 offH ++ ':' :: render2 offM)) =
      some ((if sgn = '-' then -(((offH * 60 + offM) * 60 : Nat) : Int)
        else (((offH * 60 + offM) * 60 : Nat) : Int)), []) := by
  have h := parseZoneOffsetPart_rendered ha hb hc hnu hH hM hsgn []
  simpa using h

theorem parseZoneOffsetPart_rendered_utc_nil {offH offM : Nat}
    (hH : offH < 100) (hM : offM < 100) {sgn : Char}
    (hsgn : sgn = '+' ∨ sgn = '-') :
    parseZoneOffsetPart (' ' :: 'U' :: 'T' :: 'C' :: ' ' :: sgn ::
        (render2 offH ++ ':' :: render2 offM)) = some (0, []) := by
  have h := parseZoneOffsetPart_rendered_utc hH hM hsgn []
  simpa using h

theorem daysInMonth_le_31 (m y : Nat) : daysInMonth m y ≤ 31 := by
  unfold daysInMonth
  split <;> first | omega | (split <;> omega)

/-- Variant lemma behind C8: a rendered timestamp in the layout's own
shape — zone, space, negative offset — contains no `+`, so the
space-injection is the identity, and `GetTime` parses it to the denoted
instant. -/
theorem getTime_rendered_minus (mon day year h12 minute second offH offM : Nat)
    (pm : Bool) (a b c : Char)
    (h1 : 1 ≤ mon) (h2 : mon ≤ 12) (hd1 : 1 ≤ day)
    (hd2 : day ≤ daysInMonth mon year) (hy : year < 10000) (hh : h12 ≤ 12)
    (hm : minute < 60) (hs : second < 60) (hoH : offH < 100) (hoM : offM < 100)
    (ha : isUpperCh a = true) (hb : isUpperCh b = true)
    (hc : isUpperCh c = true) (hnu : ¬(a = 'U' ∧ b = 'T' ∧ c = 'C')) :
    AndroidLogEntry.GetTime
        ⟨renderAndroidTime mon day year h12 minute second pm [a, b, c] true '-'
          offH offM⟩ =
      ⟨civilUnix year mon day
          (if pm ∧ h12 < 12 then h12 + 12
            else if ¬pm ∧ h12 = 12 then 0 else h12) minute second +
        (((offH * 60 + offM) * 60 : Nat) : Int), 0⟩ := by
  have hform : renderAndroidTime mon day year h12 minute second pm [a, b, c]
      true '-' offH offM =
      monthName mon ++ (' ' :: (natDecChars day ++ (',' :: ' ' ::
          (render4 year ++ (' ' :: (natDecChars h12 ++ (':' ::
            (render2 minute ++ (':' :: (render2 second ++ (' ' ::
              ((if pm then ['P', 'M'] else ['A', 'M']) ++
                (' ' :: a :: b :: c :: ' ' :: '-' ::
                  (render2 offH ++ (':' :: render2 offM))))))))))))))) := by
    simp [renderAndroidTime]
  have hAmpm : '+' ∉ (if pm then ['P', 'M'] else ['A', 'M']) := by
    cases pm <;> decide
  have hplus : '+' ∉ renderAndroidTime mon day year h12 minute second pm
      [a, b, c] true '-' offH offM := by
    rw [hform]
    simp [List.mem_append, List.mem_cons, plus_not_mem_monthName h1 h2,
      plus_not_mem_natDecChars, plus_not_mem_render2, plus_not_mem_render4,
      plus_ne_of_upper ha, plus_ne_of_upper hb, plus_ne_of_upper hc, hAmpm]
  unfold AndroidLogEntry.GetTime
  rw [replacePlus1_id hplus, hform]
  unfold timeParseAndroidLayout
  rw [parseDatePart_rendered h1 h2
    (by have := daysInMonth_le_31 mon year; omega) hy]
  simp only []
  rw [parseClockPart_rendered hh hm hs]
  simp only []
  rw [parseZoneOffsetPart_rendered_nil ha hb hc hnu hoH hoM (Or.inr rfl)]
  have hdc : ¬(day = 0 ∨ daysInMonth mon year < day) := by omega
  simp [hdc, sub_neg_eq_add]

/-- Variant lemma behind C8: a rendered timestamp with a `GMT+02:00`-style
zone — positive offset glued to the abbreviation — is repaired by the
space-injection and `GetTime` parses it to the denoted instant. -/
theorem getTime_rendered_plus (mon day year h12 minute second offH offM : Nat)
    (pm : Bool) (a b c : Char)
    (h1 : 1 ≤ mon) (h2 : mon ≤ 12) (hd1 : 1 ≤ day)
    (hd2 : day ≤ daysInMonth mon year) (hy : year < 10000) (hh : h12 ≤ 12)
    (hm : minute < 60) (hs : second < 60) (hoH : offH < 100) (hoM : offM < 100)
    (ha : isUpperCh a = true) (hb : isUpperCh b = true)
    (hc : isUpperCh c = true) (hnu : ¬(a = 'U' ∧ b = 'T' ∧ c = 'C')) :
    AndroidLogEntry.GetTime
        ⟨renderAndroidTime mon day year h12 minute second pm [a, b, c] false '+'
          offH offM⟩ =
      ⟨civilUnix year mon day
          (if pm ∧ h12 < 12 then h12 + 12
            else if ¬pm ∧ h12 = 12 then 0 else h12) minute second -
        (((offH * 60 + offM) * 60 : Nat) : Int), 0⟩ := by
  have hformB : renderAndroidTime mon day year h12 minute second pm [a, b, c]
      false '+' offH offM =
      (monthName mon ++ (' ' :: (natDecChars day ++ (',' :: ' ' ::
          (render4 year ++ (' ' :: (natDecChars h12 ++ (':' ::
            (render2 minute ++ (':' :: (render2 second ++ (' ' ::
              ((if pm then ['P', 'M'] else ['A', 'M']) ++
                (' ' :: a :: b :: c :: [])))))))))))))) ++
        '+' :: (render2 offH ++ (':' :: render2 offM)) := by
    simp [renderAndroidTime]
  have hAmpm : '+' ∉ (if pm then ['P', 'M'] else ['A', 'M']) := by
    cases pm <;> decide
  have hplusP : '+' ∉
      (monthName mon ++ (' ' :: (natDecChars day ++ (',' :: ' ' ::
          (render4 year ++ (' ' :: (natDecChars h12 ++ (':' ::
            (render2 minute ++ (':' :: (render2 second ++ (' ' ::
              ((if pm then ['P', 'M'] else ['A', 'M']) ++
                (' ' :: a :: b :: c :: [])))))))))))))) := by
    simp [List.mem_append, List.mem_cons, plus_not_mem_monthName h1 h2,
      plus_not_mem_natDecChars, plus_not_mem_render2, plus_not_mem_render4,
      plus_ne_of_upper ha, plus_ne_of_upper hb, plus_ne_of_upper hc, hAmpm]
  unfold AndroidLogEntry.GetTime
  rw [hformB, replacePlus1_append _ _ hplusP]
  have hnorm :
      (monthName mon ++ (' ' :: (natDecChars day ++ (',' :: ' ' ::
          (render4 year ++ (' ' :: (natDecChars h12 ++ (':' ::
            (render2 minute ++ (':' :: (render2 second ++ (' ' ::
              ((if pm then ['P', 'M'] else ['A', 'M']) ++
                (' ' :: a :: b :: c :: [])))))))))))))) ++
        ' ' :: '+' :: (render2 offH ++ (':' :: render2 offM)) =
      monthName mon ++ (' ' :: (natDecChars day ++ (',' :: ' ' ::
          (render4 year ++ (' ' :: (natDecChars h12 ++ (':' ::
            (render2 minute ++ (':' :: (render2 second ++ (' ' ::
              ((if pm then ['P', 'M'] else ['A', 'M']) ++
                (' ' :: a :: b :: c :: ' ' :: '+' ::
                  (render2 offH ++ (':' :: render2 offM))))))))))))))) := by
    simp only [List.append_assoc, List.cons_append, List.append_nil,
      List.nil_append]
  rw [hnorm]
  unfold timeParseAndroidLayout
  rw [parseDatePart_rendered h1 h2
    (by have := daysInMonth_le_31 mon year; omega) hy]
  simp only []
  rw [parseClockPart_rendered hh hm hs]
  simp only []
  rw [parseZoneOffsetPart_rendered_nil ha hb hc hnu hoH hoM (Or.inl rfl)]
  have hdc : ¬(day = 0 ∨ daysInMonth mon year < day) := by omega
  simp [hdc]

/-- Variant lemma behind C8, the `UTC` special case: when the zone
abbreviation is literally `UTC`, Go's `stdTZ` handler sets the location
directly and the final `if z != nil` return ignores the parsed numeric
offset, so the instant is the civil time read as UTC. -/
theorem getTime_rendered_utc (mon day year h12 minute second offH offM : Nat)
    (pm : Bool)
    (h1 : 1 ≤ mon) (h2 : mon ≤ 12) (hd1 : 1 ≤ day)
    (hd2 : day ≤ daysInMonth mon year) (hy : year < 10000) (hh : h12 ≤ 12)
    (hm : minute < 60) (hs : second < 60) (hoH : offH < 100)
    (hoM : offM < 100) :
    AndroidLogEntry.GetTime
        ⟨renderAndroidTime mon day year h12 minute second pm
          ['U', 'T', 'C'] true '-' offH offM⟩ =
      ⟨civilUnix year mon day
          (if pm ∧ h12 < 12 then h12 + 12
            else if ¬pm ∧ h12 = 12 then 0 else h12) minute second, 0⟩ := by
  have hform : renderAndroidTime mon day year h12 minute second pm
      ['U', 'T', 'C'] true '-' offH offM =
      monthName mon ++ (' ' :: (natDecChars day ++ (',' :: ' ' ::
          (render4 year ++ (' ' :: (natDecChars h12 ++ (':' ::
            (render2 minute ++ (':' :: (render2 second ++ (' ' ::
              ((if pm then ['P', 'M'] else ['A', 'M']) ++
                (' ' :: 'U' :: 'T' :: 'C' :: ' ' :: '-' ::
                  (render2 offH ++ (':' :: render2 offM))))))))))))))) := by
    simp [renderAndroidTime]
  have hAmpm : '+' ∉ (if pm then ['P', 'M'] else ['A', 'M']) := by
    cases pm <;> decide
  have hplus : '+' ∉ renderAndroidTime mon day year h12 minute second pm
      ['U', 'T', 'C'] true '-' offH offM := by
    rw [hform]
    simp [List.mem_append, List.mem_cons, plus_not_mem_monthName h1 h2,
      plus_not_mem_natDecChars, plus_not_mem_render2, plus_not_mem_render4,
      hAmpm]
  unfold AndroidLogEntry.GetTime
  rw [replacePlus1_id hplus, hform]
  unfold timeParseAndroidLayout
  rw [parseDatePart_rendered h1 h2
    (by have := daysInMonth_le_31 mon year; omega) hy]
  simp only []
  rw [parseClockPart_rendered hh hm hs]
  simp only []
  rw [parseZoneOffsetPart_rendered_utc_nil hoH hoM (Or.inr rfl)]
  have hdc : ¬(day = 0 ∨ daysInMonth mon year < day) := by omega
  simp [hdc]

/-- C8: an Android-legacy timestamp string in the layout's form
(`"January 2, 2006 3:04:05 PM MST -07:00"`), and also the variant with the
positive offset glued to the zone abbreviation (`"GMT+02:00"`), is parsed
by `GetTime` to the denoted instant via the replace-first-`+` space
injection. When the zone abbreviation is literally `UTC`, Go's `stdTZ`
special case makes the parsed numeric offset inert and the instant is the
civil time read as UTC (third conjunct). The envelope `Parse` dispatches
the four type tags to the corresponding typed value and errors on any
other tag. -/
theorem android_log_gettime_and_parse :
    (∀ (mon day year h12 minute second offH offM : Nat) (pm : Bool)
        (a b c : Char),
      1 ≤ mon → mon ≤ 12 → 1 ≤ day → day ≤ daysInMonth mon year →
      year < 10000 → h12 ≤ 12 → minute < 60 → second < 60 → offH < 100 →
      offM < 100 → isUpperCh a = true → isUpperCh b = true →
      isUpperCh c = true → ¬(a = 'U' ∧ b = 'T' ∧ c = 'C') →
      AndroidLogEntry.GetTime
          ⟨renderAndroidTime mon day year h12 minute second pm [a, b, c]
            true '-' offH offM⟩ =
        ⟨civilUnix year mon day
            (if pm ∧ h12 < 12 then h12 + 12
              else if ¬pm ∧ h12 = 12 then 0 else h12) minute second +
          (((offH * 60 + offM) * 60 : Nat) : Int), 0⟩ ∧
      AndroidLogEntry.GetTime
          ⟨renderAndroidTime mon day year h12 minute second pm [a, b, c]
            false '+' offH offM⟩ =
        ⟨civilUnix year mon day
            (if pm ∧ h12 < 12 then h12 + 12
              else if ¬pm ∧ h12 = 12 then 0 else h12) minute second -
          (((offH * 60 + offM) * 60 : Nat) : Int), 0⟩) ∧
    (∀ (mon day year h12 minute second offH offM : Nat) (pm : Bool),
      1 ≤ mon → mon ≤ 12 → 1 ≤ day → day ≤ daysInMonth mon year →
      year < 10000 → h12 ≤ 12 → minute < 60 → second < 60 → offH < 100 →
      offM < 100 →
      AndroidLogEntry.GetTime
          ⟨renderAndroidTime mon day year h12 minute second pm
            ['U', 'T', 'C'] true '-' offH offM⟩ =
        ⟨civilUnix year mon day
            (if pm ∧ h12 < 12 then h12 + 12
              else if ¬pm ∧ h12 = 12 then 0 else h12) minute second, 0⟩) ∧
    (∀ env : AndroidLogEnvelope,
      (env.type = "verification".data →
        env.Parse = Except.ok (AndroidLogValue.verification env.value)) ∧
      (env.type = "issue".data →
        env.Parse = Except.ok (AndroidLogValue.issuance env.value)) ∧
      (env.type = "signature".data →
        env.Parse = Except.ok (AndroidLogValue.signature env.value)) ∧
      (env.type = "remove".data →
        env.Parse = Except.ok (AndroidLogValue.removal env.value)) ∧
      (env.type ≠ "verification".data → env.type ≠ "issue".data →
        env.type ≠ "signature".data → env.type ≠ "remove".data →
        env.Parse = Except.error ("Invalid Android log type".data))) := by
  refine ⟨?_, ?_, ?_⟩
  · intro mon day year h12 minute second offH offM pm a b c h1 h2 hd1 hd2 hy
      hh hm hs hoH hoM ha hb hc hnu
    exact ⟨getTime_rendered_minus mon day year h12 minute second offH offM pm
        a b c h1 h2 hd1 hd2 hy hh hm hs hoH hoM ha hb hc hnu,
      getTime_rendered_plus mon day year h12 minute second offH offM pm
        a b c h1 h2 hd1 hd2 hy hh hm hs hoH hoM ha hb hc hnu⟩
  · intro mon day year h12 minute second offH offM pm h1 h2 hd1 hd2 hy
      hh hm hs hoH hoM
    exact getTime_rendered_utc mon day year h12 minute second offH offM pm
      h1 h2 hd1 hd2 hy hh hm hs hoH hoM
  · intro env
    refine ⟨?_, ?_, ?_, ?_, ?_⟩
    · intro h
      simp [AndroidLogEnvelope.Parse, h]
    · intro h
      simp [AndroidLogEnvelope.Parse, h]
    · intro h
      simp [AndroidLogEnvelope.Parse, h]
    · intro h
      simp [AndroidLogEnvelope.Parse, h]
    · intro h1 h2 h3 h4
      simp [AndroidLogEnvelope.Parse, h1, h2, h3, h4]

theorem android_log_gettime_and_parse_witness :
    AndroidLogEntry.GetTime
        ⟨renderAndroidTime 9 29 2017 11 12 57 false ['G', 'M', 'T']
          false '+' 2 0⟩ = ⟨1506676377, 0⟩ ∧
    AndroidLogEntry.GetTime
        ⟨renderAndroidTime 1 2 2006 3 4 5 true ['M', 'S', 'T']
          true '-' 7 0⟩ = ⟨1136239445, 0⟩ ∧
    AndroidLogEntry.GetTime
        ⟨renderAndroidTime 1 2 2006 3 4 5 true ['U', 'T', 'C']
          true '-' 7 0⟩ = ⟨1136214245, 0⟩ ∧
    AndroidLogEnvelope.Parse ⟨"issue".data, ['x']⟩ =
      Except.ok (AndroidLogValue.issuance ['x']) :=
  ⟨(android_log_gettime_and_parse.1 9 29 2017 11 12 57 2 0 false 'G' 'M' 'T'
      (by decide) (by decide) (by decide) (by decide) (by decide) (by decide)
      (by decide) (by decide) (by decide) (by decide) (by decide) (by decide)
      (by decide) (by decide)).2,
   (android_log_gettime_and_parse.1 1 2 2006 3 4 5 7 0 true 'M' 'S' 'T'
      (by decide) (by decide) (by decide) (by decide) (by decide) (by decide)
      (by decide) (by decide) (by decide) (by decide) (by decide) (by decide)
      (by decide) (by decide)).1,
   android_log_gettime_and_parse.2.1 1 2 2006 3 4 5 7 0 true
      (by decide) (by decide) (by decide) (by decide) (by decide) (by decide)
      (by decide) (by decide) (by decide) (by decide),
   (android_log_gettime_and_parse.2.2 ⟨"issue".data, ['x']⟩).2.1 rfl⟩
